import Mathlib

/-!
Shallow embedding of the autocargo resolution-and-consolidation engine
(facebookexperimental/autocargo) together with proofs about its behaviour.

The embedding follows the Rust sources:
  * `src/paths.rs`, `src/buck_processing/rules.rs` - rule identifiers;
  * `src/buck_processing/raw_manifest.rs` - raw manifests and override types;
  * `src/buck_processing/manifest.rs` - the manifest resolver;
  * `src/buck_processing/loader.rs` - the batched build-and-parse loader;
  * `src/cargo_generator/generation/consolidated_dependencies.rs` - the
    per-output-unit dependency consolidation;
  * `src/cargo_generator/generation/dependencies.rs` - dependency-set
    computation, conflict detection and override application;
  * `src/config.rs` - project catalog and project selection.

Rust `HashMap`/`HashSet`/`BTreeMap` collections are modelled as association
lists (with key uniqueness tracked where proofs need it), `Arc` sharing is
dropped (values are copied), and machine strings are Lean `String`s.
Fallible Rust functions returning `anyhow::Result` are modelled with
`Except String`.
-/

namespace Autocargo

/-! ## Paths and rule identifiers -/

/-- Model of `TargetsPath` (`src/paths.rs`): the directory of a TARGETS file,
relative to the fbcode root, kept as a plain string. -/
abbrev TargetsPath := String

/-- Model of `FbcodeBuckRule` (`src/buck_processing/rules.rs`): a fully
qualified build target inside fbcode. -/
structure FbcodeBuckRule where
  path : TargetsPath
  name : String
deriving DecidableEq, Repr

/-- Model of the static `THRIFT_COMPILER_RULE`
(`src/buck_processing/manifest.rs`). -/
def THRIFT_COMPILER_RULE : FbcodeBuckRule :=
  { path := "common/rust/shed/thrift_compiler", name := "lib" }

/-- Model of the static `CODEGEN_INCLUDER_PROC_MACRO_RULE`
(`src/buck_processing/manifest.rs`). -/
def CODEGEN_INCLUDER_PROC_MACRO_RULE : FbcodeBuckRule :=
  { path := "common/rust/shed/codegen_includer_proc_macro"
    name := "codegen_includer_proc_macro" }

/-! ## Raw manifests -/

/-- Model of `RawFbconfigRuleType` (`src/buck_processing/raw_manifest.rs`). -/
inductive RawFbconfigRuleType where
  | RustBinary
  | RustLibrary
  | RustUnittest
  | RustBindgenLibrary
  | Other
deriving DecidableEq, Repr

/-- Projection of `RawBuckManifest` (`src/buck_processing/raw_manifest.rs`) to
the fields consulted by the operations embedded here: the rule name, the rule
type, `autocargo.ignore_rule`, and whether `autocargo.thrift` is present
(`thrift` stands for `autocargo.thrift.is_some()`).  The remaining fields
(sources, rust config, the raw dependency lists, the full autocargo block) are
carried opaquely by the surrounding structures and never inspected by the
functions proved about below. -/
structure RawBuckManifest where
  name : String
  fbconfig_rule_type : RawFbconfigRuleType
  ignore_rule : Bool
  thrift : Bool
deriving DecidableEq, Repr

/-! ## Cargo dependency values (`cargo_toml` crate model)

The `cargo_toml::Dependency` / `DependencyDetail` types come from an external
crate; the fields below are exactly the ones the Rust code destructures in
`src/cargo_generator/generation/dependencies.rs`.  The `Inherited` dependency
variant is not modelled: every code path of this repository reaching it calls
`unimplemented!` (a panic), so it never participates in the behaviours under
proof.  The `unstable` table of extra keys is modelled as an association
list. -/

/-- Model of `cargo_toml::DependencyDetail`. -/
structure DependencyDetail where
  version : Option String
  registry : Option String
  registry_index : Option String
  path : Option String
  inherited : Bool
  git : Option String
  branch : Option String
  tag : Option String
  rev : Option String
  features : List String
  optional : Bool
  default_features : Bool
  package : Option String
  unstable : List (String × String)
deriving DecidableEq, Repr

/-- The `DependencyDetail::default()` value of the `cargo_toml` crate:
everything absent, `default_features = true`. -/
def DependencyDetail.default : DependencyDetail :=
  { version := none
    registry := none
    registry_index := none
    path := none
    inherited := false
    git := none
    branch := none
    tag := none
    rev := none
    features := []
    optional := false
    default_features := true
    package := none
    unstable := [] }

/-- Model of `cargo_toml::Dependency` (without the unsupported `Inherited`
variant, see above). -/
inductive Dependency where
  | Simple (version : String)
  | Detailed (detail : DependencyDetail)
deriving DecidableEq, Repr

/-- Model of `cargo_toml::Dependency::package()`: the explicit package rename
of a detailed dependency. -/
def Dependency.package : Dependency → Option String
  | .Simple _ => none
  | .Detailed d => d.package

/-- Model of `dependency_to_dependency_detail`
(`src/cargo_generator/generation/dependencies.rs`).  The Rust function also
takes the dependency name, used only in the panic message of the unmodelled
`Inherited` arm. -/
def dependency_to_dependency_detail : Dependency → DependencyDetail
  | .Simple version => { DependencyDetail.default with version := some version }
  | .Detailed detail => detail

/-- Model of `dependency_detail_to_dependency`
(`src/cargo_generator/generation/dependencies.rs`): a fully detailed
dependency that reduces to a plain version is rewritten to the terse form. -/
def dependency_detail_to_dependency (detail : DependencyDetail) : Dependency :=
  match detail.version with
  | some version =>
      if detail.registry = none ∧ detail.registry_index = none ∧
          detail.path = none ∧ detail.inherited = false ∧ detail.git = none ∧
          detail.branch = none ∧ detail.tag = none ∧ detail.rev = none ∧
          detail.optional = false ∧ detail.default_features = true ∧
          detail.package = none ∧ detail.features = [] ∧ detail.unstable = []
      then .Simple version
      else .Detailed detail
  | none => .Detailed detail

/-! ## Tri-state dependency overrides -/

/-- Model of `CargoDependencyOverride` (`src/buck_processing/raw_manifest.rs`):
field-level overrides applied to Cargo dependencies after buck-based
generation.  Fields of type `Option (Option _)` are tri-state
(`none` = inherit, `some none` = clear, `some (some v)` = set); `features`,
`optional` and `default_features` are plain options, matching the Rust
declaration. -/
structure CargoDependencyOverride where
  version : Option (Option String)
  registry : Option (Option String)
  registry_index : Option (Option String)
  path : Option (Option String)
  git : Option (Option String)
  branch : Option (Option String)
  tag : Option (Option String)
  rev : Option (Option String)
  features : Option (List String)
  optional : Option Bool
  default_features : Option Bool
  package : Option (Option String)
deriving DecidableEq, Repr

/-- The `CargoDependencyOverride::default()` value: every field inherits. -/
def CargoDependencyOverride.default : CargoDependencyOverride :=
  { version := none
    registry := none
    registry_index := none
    path := none
    git := none
    branch := none
    tag := none
    rev := none
    features := none
    optional := none
    default_features := none
    package := none }

/-! ## Association-list maps

`DepsSet = BTreeMap<String, Dependency>` and the other keyed collections are
modelled as association lists.  `lookupA` finds the first binding; `insertA`
replaces the first binding in place or appends, which preserves key
uniqueness. -/

/-- First binding of a key in an association list. -/
def lookupA {α : Type} (l : List (String × α)) (k : String) : Option α :=
  match l with
  | [] => none
  | (k', v) :: t => if k' = k then some v else lookupA t k

/-- Insert a binding, replacing the first existing binding of the key. -/
def insertA {α : Type} (l : List (String × α)) (k : String) (v : α) :
    List (String × α) :=
  match l with
  | [] => [(k, v)]
  | (k', v') :: t => if k' = k then (k, v) :: t else (k', v') :: insertA t k v

/-- Number of bindings of a key. -/
def countKeyA {α : Type} (l : List (String × α)) (k : String) : Nat :=
  (l.filter (fun e => e.1 = k)).length

/-- Key uniqueness of an association list. -/
def KeysNodup {α : Type} (l : List (String × α)) : Prop :=
  (l.map Prod.fst).Nodup

/-- Model of `DepsSet = BTreeMap<String, Dependency>`. -/
abbrev DepsSet := List (String × Dependency)

/-! ## The Cargo generator context -/

/-- Projection of `CargoGenerator` (`src/cargo_generator/generator.rs`) to the
data consulted by the embedded operations: the third-party crate catalog
parsed from `third-party/rust/Cargo.toml`, and the domain of the
`targets_to_projects` map (the dependency-acceptance filter only asks whether
a targets path is covered by some project). -/
structure CargoGenerator where
  third_party_crates : List (String × Dependency)
  targets_to_projects : List TargetsPath

/-- Model of `detail_to_dep`
(`src/cargo_generator/generation/dependencies.rs`): set the `optional` and
`package` fields of a detailed dependency and simplify it to the terse form
when possible.  `aliasName` is the content of the Rust `Alias` newtype. -/
def detail_to_dep (package_name : String) (detail : DependencyDetail)
    (optional_deps : List String) (aliasName : Option String) : Dependency :=
  let detail :=
    { detail with
      optional :=
        match aliasName with
        | some a => optional_deps.contains a
        | none => optional_deps.contains package_name
      package :=
        aliasName.bind (fun a =>
          if a = package_name then none else some package_name) }
  dependency_detail_to_dependency detail

/-- Model of `get_third_party_dependency`
(`src/cargo_generator/generation/dependencies.rs`): resolve a third-party
dependency against the catalog; the returned key is the package name declared
in the catalog (which may differ from the queried name for aliased
third-party entries). -/
def get_third_party_dependency (cargo_generator : CargoGenerator)
    (optional_deps : List String) (aliasName : Option String) (tp_name : String) :
    Except String (String × Dependency) :=
  match lookupA cargo_generator.third_party_crates tp_name with
  | some dep =>
      let package_name := (dep.package).getD tp_name
      let detail := dependency_to_dependency_detail dep
      .ok (package_name, detail_to_dep package_name detail optional_deps aliasName)
  | none => .error ("Missing third-party dependency " ++ tp_name)

/-- Model of `apply_override`
(`src/cargo_generator/generation/dependencies.rs`): apply a field-level
`CargoDependencyOverride` to a dependency.  The `cxx-build` key has a
hardcoded back-fill: its version tracks the resolved version of the
third-party crate `cxx` whenever that crate resolves. -/
def apply_override (cargo_generator : CargoGenerator)
    (optional_deps : List String) (key : String) (dep : Dependency)
    (dep_override : CargoDependencyOverride) : Dependency :=
  let d := dependency_to_dependency_detail dep
  let fixed_up_version :=
    if key = "cxx-build" then
      match get_third_party_dependency cargo_generator optional_deps none "cxx" with
      | .ok (_, cxx_dep) => (dependency_to_dependency_detail cxx_dep).version
      | .error _ => (dep_override.version).getD d.version
    else (dep_override.version).getD d.version
  dependency_detail_to_dependency
    { version := fixed_up_version
      registry := (dep_override.registry).getD d.registry
      registry_index := (dep_override.registry_index).getD d.registry_index
      path := (dep_override.path).getD d.path
      inherited := d.inherited
      git := (dep_override.git).getD d.git
      branch := (dep_override.branch).getD d.branch
      tag := (dep_override.tag).getD d.tag
      rev := (dep_override.rev).getD d.rev
      features := (dep_override.features).getD d.features
      optional := (dep_override.optional).getD d.optional
      default_features := (dep_override.default_features).getD d.default_features
      package := (dep_override.package).getD d.package
      unstable := [] }

/-! ## Consolidated dependencies (`consolidated_dependencies.rs`) -/

/-- Model of `OsDepsPlatform` (`src/buck_processing/manifest.rs`). -/
inductive OsDepsPlatform where
  | Linux
  | Macos
  | Windows
deriving DecidableEq, Repr

/-- The `enum_iterator::all::<OsDepsPlatform>()` sequence, in declaration
order. -/
def OsDepsPlatform.all : List OsDepsPlatform := [.Linux, .Macos, .Windows]

/-- Model of `BuckDependency` (`src/buck_processing/manifest.rs`): a resolved
dependency edge, either a third-party crate name or a pointer to an fbcode
rule's raw manifest together with its targets path. -/
inductive BuckDependency where
  | ThirdPartyCrate (name : String)
  | FbcodeCrate (targets_path : TargetsPath) (raw : RawBuckManifest)
deriving DecidableEq, Repr

/-- Model of `FbcodeRule`
(`src/cargo_generator/generation/consolidated_dependencies.rs`): the key
identifying a raw manifest in the consolidated sets. -/
structure FbcodeRule where
  targets_path : TargetsPath
  buck_name : String
deriving DecidableEq, Repr

/-- Model of `FbcodeRule::try_new`: filters ignored rules, rules not covered
by any project and rules that are not `rust_library`. -/
def FbcodeRule.try_new (cargo_generator : CargoGenerator)
    (targets_path : TargetsPath) (raw : RawBuckManifest) : Option FbcodeRule :=
  if raw.ignore_rule ∨ ¬ cargo_generator.targets_to_projects.contains targets_path
  then none
  else if raw.fbconfig_rule_type = .RustLibrary then
    some { targets_path := targets_path, buck_name := raw.name }
  else none

/-- Model of `FbcodeRule::unsafe_from_buck_rule`. -/
def FbcodeRule.unsafe_from_buck_rule (targets_path : TargetsPath)
    (buck_name : String) : FbcodeRule :=
  { targets_path := targets_path, buck_name := buck_name }

/-- Model of `Deps`
(`src/cargo_generator/generation/consolidated_dependencies.rs`): a condensed
set of third-party names and fbcode manifests (the Rust `HashSet`/`HashMap`
are lists here). -/
structure Deps where
  third_party : List String
  fbcode : List (FbcodeRule × RawBuckManifest)
deriving Repr

/-- The `Deps::default()` value. -/
def Deps.default : Deps := { third_party := [], fbcode := [] }

/-- Model of `NamedDeps`: like `Deps` but third-party entries carry the alias
and fbcode entries are keyed by `(alias, rule)`. -/
structure NamedDeps where
  third_party : List (String × String)
  fbcode : List ((String × FbcodeRule) × RawBuckManifest)
deriving Repr

/-- The `NamedDeps::default()` value. -/
def NamedDeps.default : NamedDeps := { third_party := [], fbcode := [] }

/-- Model of `Deps::from_deps`: split an edge stream into third-party and
fbcode parts, dropping edges back into the unit being processed
(`targets_path` equals the local one and the rule name is local) and edges
rejected by `FbcodeRule::try_new`. -/
def Deps.from_deps (cargo_generator : CargoGenerator)
    (local_targets_path : TargetsPath) (local_rules : List String)
    (deps : List BuckDependency) : Deps :=
  { third_party :=
      deps.filterMap (fun dep =>
        match dep with
        | .ThirdPartyCrate name => some name
        | .FbcodeCrate _ _ => none)
    fbcode :=
      deps.filterMap (fun dep =>
        match dep with
        | .ThirdPartyCrate _ => none
        | .FbcodeCrate targets_path raw =>
            if targets_path = local_targets_path ∧
                local_rules.contains raw.name
            then none
            else
              (FbcodeRule.try_new cargo_generator targets_path raw).map
                (fun rule => (rule, raw))) }

/-- Model of `NamedDeps::from_named_deps`: as `Deps.from_deps` for aliased
edges. -/
def NamedDeps.from_named_deps (cargo_generator : CargoGenerator)
    (local_targets_path : TargetsPath) (local_rules : List String)
    (named_deps : List (String × BuckDependency)) : NamedDeps :=
  { third_party :=
      named_deps.filterMap (fun e =>
        match e.2 with
        | .ThirdPartyCrate name => some (e.1, name)
        | .FbcodeCrate _ _ => none)
    fbcode :=
      named_deps.filterMap (fun e =>
        match e.2 with
        | .ThirdPartyCrate _ => none
        | .FbcodeCrate targets_path raw =>
            if targets_path = local_targets_path ∧
                local_rules.contains raw.name
            then none
            else
              (FbcodeRule.try_new cargo_generator targets_path raw).map
                (fun rule => ((e.1, rule), raw))) }

/-- Model of `ThriftConfig` (`src/buck_processing/manifest.rs`). -/
structure ThriftConfig where
  cratemap_content : String
  thrift_compiler : RawBuckManifest
  codegen_includer_proc_macro_manifest : RawBuckManifest
deriving Repr

/-- Model of `BuckManifest` (`src/buck_processing/manifest.rs`): a processed
manifest with resolved dependency edges.  `fbconfig_rule_type` (the processed
enum) is omitted: consolidation reads only the raw type through the
dependency edges. -/
structure BuckManifest where
  raw : RawBuckManifest
  deps : List BuckDependency
  named_deps : List (String × BuckDependency)
  os_deps : List (OsDepsPlatform × List BuckDependency)
  tests : List BuckDependency
  test_deps : List BuckDependency
  test_named_deps : List (String × BuckDependency)
  test_os_deps : List (OsDepsPlatform × List BuckDependency)
  thrift_config : Option ThriftConfig
deriving Repr

/-- Lookup in an `os_deps` map, defaulting to the empty list, matching
`manifest.os_deps().get(&os).into_iter().flatten()`. -/
def osDepsGet (m : List (OsDepsPlatform × List BuckDependency))
    (os : OsDepsPlatform) : List BuckDependency :=
  match m.find? (fun e => e.1 = os) with
  | some e => e.2
  | none => []

/-- Insert into the fbcode map of a `Deps`, replacing an existing binding of
the same rule (HashMap `insert`). -/
def insertFbcode (l : List (FbcodeRule × RawBuckManifest)) (k : FbcodeRule)
    (v : RawBuckManifest) : List (FbcodeRule × RawBuckManifest) :=
  match l with
  | [] => [(k, v)]
  | (k', v') :: t => if k' = k then (k, v) :: t else (k', v') :: insertFbcode t k v

/-- Model of `ConsolidatedDependencies`
(`src/cargo_generator/generation/consolidated_dependencies.rs`). -/
structure ConsolidatedDependencies where
  deps : Deps
  named_deps : NamedDeps
  os_deps : List (OsDepsPlatform × Deps)
  test_deps : Deps
  test_named_deps : NamedDeps
  test_os_deps : List (OsDepsPlatform × Deps)
  build_deps : Deps
deriving Repr

/-- Model of `ConsolidatedDependencies::new`: consolidate the dependency
edges of the rules forming one output unit (an optional library, binaries and
tests), dropping edges pointing back at the unit's own rules, and injecting
the thrift codegen pseudo-dependencies when the library declares thrift
support. -/
def ConsolidatedDependencies.new (cargo_generator : CargoGenerator)
    (targets_path : TargetsPath) (lib : Option BuckManifest)
    (bins : List BuckManifest) (tests : List BuckManifest) :
    ConsolidatedDependencies :=
  let local_rules : List String :=
    (lib.toList ++ bins ++ tests).map (fun m => m.raw.name)
  let thrift_config := lib.bind (fun l => l.thrift_config)
  let lib_and_bins := lib.toList ++ bins
  let deps :=
    let deps0 :=
      Deps.from_deps cargo_generator targets_path local_rules
        (lib_and_bins.flatMap (fun m => m.deps))
    match thrift_config with
    | some tc =>
        { deps0 with
          fbcode :=
            insertFbcode deps0.fbcode
              (FbcodeRule.unsafe_from_buck_rule
                CODEGEN_INCLUDER_PROC_MACRO_RULE.path
                CODEGEN_INCLUDER_PROC_MACRO_RULE.name)
              tc.codegen_includer_proc_macro_manifest }
    | none => deps0
  let named_deps :=
    NamedDeps.from_named_deps cargo_generator targets_path local_rules
      (lib_and_bins.flatMap (fun m => m.named_deps))
  let test_deps :=
    Deps.from_deps cargo_generator targets_path local_rules
      (lib_and_bins.flatMap (fun m => m.test_deps) ++
        tests.flatMap (fun m => m.deps))
  let test_named_deps :=
    NamedDeps.from_named_deps cargo_generator targets_path local_rules
      (lib_and_bins.flatMap (fun m => m.test_named_deps) ++
        tests.flatMap (fun m => m.named_deps))
  let os_deps :=
    OsDepsPlatform.all.map (fun os =>
      (os,
        Deps.from_deps cargo_generator targets_path local_rules
          (lib_and_bins.flatMap (fun m => osDepsGet m.os_deps os))))
  let test_os_deps :=
    OsDepsPlatform.all.map (fun os =>
      (os,
        Deps.from_deps cargo_generator targets_path local_rules
          (lib_and_bins.flatMap (fun m => osDepsGet m.test_os_deps os) ++
            tests.flatMap (fun m => osDepsGet m.os_deps os))))
  let build_deps : Deps :=
    { third_party := []
      fbcode :=
        match thrift_config with
        | some tc =>
            [(FbcodeRule.unsafe_from_buck_rule THRIFT_COMPILER_RULE.path
                THRIFT_COMPILER_RULE.name,
              tc.thrift_compiler)]
        | none => [] }
  { deps := deps
    named_deps := named_deps
    os_deps := os_deps
    test_deps := test_deps
    test_named_deps := test_named_deps
    test_os_deps := test_os_deps
    build_deps := build_deps }

/-! ## Dependency-set computation (`dependencies.rs`) -/

/-- Model of `BuckDependencyOverride` (`src/buck_processing/manifest.rs`):
processed add / add-named / remove entries of `extra_buck_dependencies`. -/
inductive BuckDependencyOverride where
  | Dep (dep : BuckDependency)
  | NamedDep (aliasName : String) (dep : BuckDependency)
  | RemovedDep (dep : BuckDependency)
deriving DecidableEq, Repr

/-- Model of the `ComputeDependencies` input struct
(`src/cargo_generator/generation/dependencies.rs`).  The
`resolveFbcode` field abstracts `get_fbcode_dependency` with its
`cargo_generator`, `optional_deps`, `cargo_toml_path` and `oss_git_config`
arguments pre-applied: given the alias, the target's path and its raw
manifest it produces the final key and dependency value, `none` when the
edge is silently dropped (the Rust function's internals do
filesystem-path arithmetic and OSS-config casing that the claims below never
inspect, so it stays a parameter of the model and the theorems hold for every
such resolver). -/
structure ComputeDependencies where
  cargo_generator : CargoGenerator
  optional_deps : List String
  deps : Deps
  named_deps : NamedDeps
  extra_buck_dependencies : List BuckDependencyOverride
  dependencies_override : List (String × CargoDependencyOverride)
  resolveFbcode :
    Option String → TargetsPath → RawBuckManifest →
      Except String (Option (String × Dependency))

/-- The third-party names removed by `RemovedDep` overrides
(`removed_third_party` in `ComputeDependencies::compute`). -/
def removedThirdParty (extra : List BuckDependencyOverride) : List String :=
  extra.filterMap (fun o =>
    match o with
    | .RemovedDep (.ThirdPartyCrate name) => some name
    | _ => none)

/-- The `(targets_path, rule name)` pairs removed by `RemovedDep` overrides
(`removed_fbcode` in `ComputeDependencies::compute`). -/
def removedFbcode (extra : List BuckDependencyOverride) :
    List (TargetsPath × String) :=
  extra.filterMap (fun o =>
    match o with
    | .RemovedDep (.FbcodeCrate path raw) => some (path, raw.name)
    | _ => none)

/-- One dependency contribution processed by `ComputeDependencies::compute`:
either a third-party reference or an fbcode reference, optionally aliased. -/
inductive Contribution where
  | tp (aliasName : Option String) (name : String)
  | fb (aliasName : Option String) (path : TargetsPath) (raw : RawBuckManifest)
deriving Repr

/-- The ordered stream of contributions processed by
`ComputeDependencies::compute`: plain third-party deps, plain fbcode deps,
named third-party deps, named fbcode deps, then the add / add-named entries
of `extra_buck_dependencies` — each filtered against the removal lists
exactly as in the Rust loops. -/
def contributionsOf (s : ComputeDependencies) : List Contribution :=
  let removed_tp := removedThirdParty s.extra_buck_dependencies
  let removed_fb := removedFbcode s.extra_buck_dependencies
  (s.deps.third_party.filter (fun n => ¬ removed_tp.contains n)).map
      (fun n => Contribution.tp none n)
    ++ (s.deps.fbcode.filter (fun e =>
          ¬ removed_fb.contains (e.1.targets_path, e.2.name))).map
        (fun e => Contribution.fb none e.1.targets_path e.2)
    ++ (s.named_deps.third_party.filter (fun e =>
          ¬ removed_tp.contains e.2)).map
        (fun e => Contribution.tp (some e.1) e.2)
    ++ (s.named_deps.fbcode.filter (fun e =>
          ¬ removed_fb.contains (e.1.2.targets_path, e.2.name))).map
        (fun e => Contribution.fb (some e.1.1) e.1.2.targets_path e.2)
    ++ s.extra_buck_dependencies.filterMap (fun o =>
        match o with
        | .Dep (.ThirdPartyCrate n) => some (Contribution.tp none n)
        | .Dep (.FbcodeCrate p raw) => some (Contribution.fb none p raw)
        | .NamedDep a (.ThirdPartyCrate n) => some (Contribution.tp (some a) n)
        | .NamedDep a (.FbcodeCrate p raw) => some (Contribution.fb (some a) p raw)
        | .RemovedDep _ => none)

/-- Resolve one contribution to its final key and dependency value: for
third-party entries via `get_third_party_dependency` (aliased entries are
keyed by the alias, plain ones by the returned package name); for fbcode
entries via the resolver (aliased entries keyed by the alias). -/
def resolveContribution (s : ComputeDependencies) :
    Contribution → Except String (Option (String × Dependency))
  | .tp aliasName n =>
      (get_third_party_dependency s.cargo_generator s.optional_deps aliasName n).map
        (fun r => some (aliasName.getD r.1, r.2))
  | .fb aliasName p raw =>
      (s.resolveFbcode aliasName p raw).map
        (fun r => r.map (fun e => (aliasName.getD e.1, e.2)))

/-- Model of the `add_to_deps` closure of `ComputeDependencies::compute`:
inserting a key that is already bound to a different value is an error;
re-inserting an identical value is accepted. -/
def addToDeps (deps_set : DepsSet) (key : String) (value : Dependency) :
    Except String DepsSet :=
  match lookupA deps_set key with
  | some old_value =>
      if value = old_value then .ok (insertA deps_set key value)
      else .error ("Found duplicate key " ++ key)
  | none => .ok (insertA deps_set key value)

/-- The accumulation loop of `ComputeDependencies::compute`: resolve each
contribution in order and feed it to `addToDeps`. -/
def computeLoop (s : ComputeDependencies) :
    List Contribution → DepsSet → Except String DepsSet
  | [], deps_set => .ok deps_set
  | c :: rest, deps_set =>
      match resolveContribution s c with
      | .error e => .error e
      | .ok none => computeLoop s rest deps_set
      | .ok (some (k, v)) =>
          match addToDeps deps_set k v with
          | .error e => .error e
          | .ok deps_set => computeLoop s rest deps_set

/-- The dependency set built by `ComputeDependencies::compute` before the
field-level override stage. -/
def buildDepsSet (s : ComputeDependencies) : Except String DepsSet :=
  computeLoop s (contributionsOf s) []

/-- Fold a list of already-resolved `(key, value)` contributions through
`addToDeps`; `computeLoop` coincides with this fold whenever every
contribution resolves (proved below). -/
def addAll : List (String × Dependency) → DepsSet → Except String DepsSet
  | [], deps_set => .ok deps_set
  | (k, v) :: rest, deps_set =>
      match addToDeps deps_set k v with
      | .error e => .error e
      | .ok deps_set => addAll rest deps_set

/-- The final stage of `ComputeDependencies::compute`: override keys that
match no built entry contribute a fresh all-default detailed dependency, all
entries are passed through `apply_override` (with the default override when
the key has none). -/
def applyOverridesStage (s : ComputeDependencies) (deps_set : DepsSet) :
    DepsSet :=
  (s.dependencies_override.filter
        (fun e => (lookupA deps_set e.1).isNone)).map
      (fun e =>
        (e.1,
          apply_override s.cargo_generator s.optional_deps e.1
            (.Detailed DependencyDetail.default) e.2))
    ++ deps_set.map (fun e =>
        (e.1,
          apply_override s.cargo_generator s.optional_deps e.1 e.2
            ((lookupA s.dependencies_override e.1).getD
              CargoDependencyOverride.default)))

/-- Model of `ComputeDependencies::compute`: accumulate all contributions
with conflict detection, then apply the field-level overrides. -/
def ComputeDependencies.compute (s : ComputeDependencies) :
    Except String DepsSet :=
  (buildDepsSet s).map (applyOverridesStage s)

/-- Resolve a whole contribution stream in order, failing on the first
resolution error. -/
def resolveAllLoop (s : ComputeDependencies) :
    List Contribution →
      Except String (List (Option (String × Dependency)))
  | [] => .ok []
  | c :: rest =>
      match resolveContribution s c with
      | .error e => .error e
      | .ok o =>
          match resolveAllLoop s rest with
          | .error e => .error e
          | .ok os => .ok (o :: os)

/-- The fully resolved contribution stream: every contribution resolved, the
silently dropped ones removed.  `buildDepsSet` is the `addToDeps`-fold of
this stream whenever resolution succeeds everywhere (proved below). -/
def resolvedContributions (s : ComputeDependencies) :
    Except String (List (String × Dependency)) :=
  (resolveAllLoop s (contributionsOf s)).map (fun l => l.filterMap id)

/-- Model of `deps_difference`
(`src/cargo_generator/generation/dependencies.rs`): keep entries of `other`
whose key-value binding does not identically appear in `base`. -/
def deps_difference (base_dependencies : DepsSet)
    (other_dependencies : DepsSet) : DepsSet :=
  other_dependencies.filter (fun e =>
    ¬ lookupA base_dependencies e.1 = some e.2)

/-- Model of `DependenciesGenerator::gen_dev_dependencies`
(`src/cargo_generator/generation/dependencies.rs`): compute the dev set,
then drop entries already identically present in the regular set. -/
def gen_dev_dependencies (regular_dependencies : DepsSet)
    (s : ComputeDependencies) : Except String DepsSet :=
  (ComputeDependencies.compute s).map
    (fun other => deps_difference regular_dependencies other)

/-! ## The manifest resolver (`manifest.rs`) -/

/-- Model of `UnprocessedBuckDependency` (`src/buck_processing/manifest.rs`):
a dependency reference before the referenced manifests are loaded. -/
inductive UnprocessedBuckDependency where
  | ThirdPartyCrate (name : String)
  | FbcodeCrate (rule : FbcodeBuckRule)
deriving DecidableEq, Repr

/-- Model of `UnprocessedBuckDependency::fbcode_crate`. -/
def UnprocessedBuckDependency.fbcode_crate :
    UnprocessedBuckDependency → Option FbcodeBuckRule
  | .FbcodeCrate rule => some rule
  | .ThirdPartyCrate _ => none

/-- Model of `UnprocessedBuckDependencyOverride`
(`src/buck_processing/manifest.rs`). -/
inductive UnprocessedBuckDependencyOverride where
  | Dep (dep : UnprocessedBuckDependency)
  | NamedDep (aliasName : String) (dep : UnprocessedBuckDependency)
  | RemovedDep (dep : UnprocessedBuckDependency)
deriving DecidableEq, Repr

/-- Model of `UnprocessedBuckDependencyOverride::fbcode_crate`. -/
def UnprocessedBuckDependencyOverride.fbcode_crate :
    UnprocessedBuckDependencyOverride → Option FbcodeBuckRule
  | .Dep dep => dep.fbcode_crate
  | .NamedDep _ dep => dep.fbcode_crate
  | .RemovedDep dep => dep.fbcode_crate

/-- Model of `UnprocessedBuckTargetDependencies`
(`src/buck_processing/manifest.rs`). -/
structure UnprocessedBuckTargetDependencies where
  dependencies : List UnprocessedBuckDependencyOverride
  dev_dependencies : List UnprocessedBuckDependencyOverride
  build_dependencies : List UnprocessedBuckDependencyOverride
deriving Repr

/-- The `UnprocessedBuckTargetDependencies::default()` value. -/
def UnprocessedBuckTargetDependencies.default :
    UnprocessedBuckTargetDependencies :=
  { dependencies := [], dev_dependencies := [], build_dependencies := [] }

/-- Model of `UnprocessedBuckTargetDependencies::fbcode_crates`. -/
def UnprocessedBuckTargetDependencies.fbcode_crates
    (d : UnprocessedBuckTargetDependencies) : List FbcodeBuckRule :=
  d.dependencies.filterMap UnprocessedBuckDependencyOverride.fbcode_crate
    ++ d.dev_dependencies.filterMap
        UnprocessedBuckDependencyOverride.fbcode_crate
    ++ d.build_dependencies.filterMap
        UnprocessedBuckDependencyOverride.fbcode_crate

/-- Model of `UnprocessedExtraBuckDependencies`
(`src/buck_processing/manifest.rs`); target keys are kept as strings. -/
structure UnprocessedExtraBuckDependencies where
  deps : UnprocessedBuckTargetDependencies
  target : List (String × UnprocessedBuckTargetDependencies)
deriving Repr

/-- The `UnprocessedExtraBuckDependencies::default()` value. -/
def UnprocessedExtraBuckDependencies.default :
    UnprocessedExtraBuckDependencies :=
  { deps := UnprocessedBuckTargetDependencies.default, target := [] }

/-- Model of `UnprocessedExtraBuckDependencies::fbcode_crates`. -/
def UnprocessedExtraBuckDependencies.fbcode_crates
    (d : UnprocessedExtraBuckDependencies) : List FbcodeBuckRule :=
  d.deps.fbcode_crates ++
    d.target.flatMap (fun e => e.2.fbcode_crates)

/-- Model of `BuckManifestBuilder` (`src/buck_processing/manifest.rs`): the
intermediate parse of one requested manifest, before the referenced
manifests are loaded.  `fbconfig_rule_type` is carried by `raw`. -/
structure BuckManifestBuilder where
  raw : RawBuckManifest
  deps : List UnprocessedBuckDependency
  named_deps : List (String × UnprocessedBuckDependency)
  os_deps : List (OsDepsPlatform × List UnprocessedBuckDependency)
  tests : List UnprocessedBuckDependency
  test_deps : List UnprocessedBuckDependency
  test_named_deps : List (String × UnprocessedBuckDependency)
  test_os_deps : List (OsDepsPlatform × List UnprocessedBuckDependency)
  extra_buck_dependencies : UnprocessedExtraBuckDependencies
deriving Repr

/-- Model of `extract_dependencies` (`src/buck_processing/manifest.rs`):
every fbcode rule mentioned in the seven dependency categories, the two
thrift pseudo-dependency rules when `autocargo.thrift` is present, and the
fbcode rules of the extra-buck-dependencies override lists. -/
def extract_dependencies (manifest_builders : List BuckManifestBuilder) :
    List FbcodeBuckRule :=
  manifest_builders.flatMap (fun b =>
    b.deps.filterMap UnprocessedBuckDependency.fbcode_crate
      ++ (b.named_deps.map Prod.snd).filterMap
          UnprocessedBuckDependency.fbcode_crate
      ++ (b.os_deps.map Prod.snd).flatMap (fun deps =>
          deps.filterMap UnprocessedBuckDependency.fbcode_crate)
      ++ b.tests.filterMap UnprocessedBuckDependency.fbcode_crate
      ++ b.test_deps.filterMap UnprocessedBuckDependency.fbcode_crate
      ++ (b.test_named_deps.map Prod.snd).filterMap
          UnprocessedBuckDependency.fbcode_crate
      ++ (b.test_os_deps.map Prod.snd).flatMap (fun deps =>
          deps.filterMap UnprocessedBuckDependency.fbcode_crate)
      ++ (if b.raw.thrift then
            [THRIFT_COMPILER_RULE, CODEGEN_INCLUDER_PROC_MACRO_RULE]
          else [])
      ++ b.extra_buck_dependencies.fbcode_crates)

/-- The referenced-but-unloaded rules of `compute_all_raw_manifests`
(`src/buck_processing/manifest.rs`): the dependency rules minus the loaded
(requested) ones, as sets. -/
def missingRules
    (manifest_builders : List (FbcodeBuckRule × BuckManifestBuilder)) :
    List FbcodeBuckRule :=
  let loaded_rules := manifest_builders.map Prod.fst
  ((extract_dependencies (manifest_builders.map Prod.snd)).dedup).filter
    (fun r => ¬ loaded_rules.contains r)

/-- Model of `compute_all_raw_manifests`
(`src/buck_processing/manifest.rs`).  The single additional
discover-and-build pass (`BuckManifestLoader::from_rust_buck_rules` followed
by `load`) is abstracted by `oracle`: for a requested rule it returns the
parsed raw manifest, or `none` when the rule is not a manifest-producing
rust rule (dropped by the discover intersection).  The result maps every
requested rule to its own path and builder manifest, and every successfully
loaded missing rule to its path and loaded manifest. -/
def compute_all_raw_manifests
    (manifest_builders : List (FbcodeBuckRule × BuckManifestBuilder))
    (oracle : FbcodeBuckRule → Option RawBuckManifest) :
    List (FbcodeBuckRule × (TargetsPath × RawBuckManifest)) :=
  manifest_builders.map (fun e => (e.1, (e.1.path, e.2.raw)))
    ++ (missingRules manifest_builders).filterMap (fun r =>
        (oracle r).map (fun m => (r, (r.path, m))))

/-- Modelled from the spec: the referenced-rule set as claim C1 words it —
"rules referenced across all seven dependency categories plus the two thrift
pseudo-dependency rules" — i.e. without the fbcode rules of the
extra-buck-dependencies override lists.  This definition exists to be
compared against `extract_dependencies`, which is the code's actual set. -/
def referencedPerClaim (manifest_builders : List BuckManifestBuilder) :
    List FbcodeBuckRule :=
  manifest_builders.flatMap (fun b =>
    b.deps.filterMap UnprocessedBuckDependency.fbcode_crate
      ++ (b.named_deps.map Prod.snd).filterMap
          UnprocessedBuckDependency.fbcode_crate
      ++ (b.os_deps.map Prod.snd).flatMap (fun deps =>
          deps.filterMap UnprocessedBuckDependency.fbcode_crate)
      ++ b.tests.filterMap UnprocessedBuckDependency.fbcode_crate
      ++ b.test_deps.filterMap UnprocessedBuckDependency.fbcode_crate
      ++ (b.test_named_deps.map Prod.snd).filterMap
          UnprocessedBuckDependency.fbcode_crate
      ++ (b.test_os_deps.map Prod.snd).flatMap (fun deps =>
          deps.filterMap UnprocessedBuckDependency.fbcode_crate)
      ++ (if b.raw.thrift then
            [THRIFT_COMPILER_RULE, CODEGEN_INCLUDER_PROC_MACRO_RULE]
          else []))

/-! ## The batched build-and-parse loader (`loader.rs`) -/

/-- The `-rust-manifest` suffix of manifest rule names
(`src/buck_processing/rules.rs`). -/
def RUST_MANIFEST_SFX : String := "-rust-manifest"

/-- Suffix test on strings, via their character lists (model of
`str::ends_with`; stated over characters so that it evaluates inside
proofs). -/
def strEndsWith (s sfx : String) : Bool := sfx.data.isSuffixOf s.data

/-- Drop the last `n` characters of a string (model of the suffix removal in
`str::strip_suffix`, stated over character lists). -/
def strDropRight (s : String) (n : Nat) : String :=
  String.mk (s.data.take (s.data.length - n))

/-- Model of `BuckManifestRule` (`src/buck_processing/rules.rs`): a rule
presumed to point at a rust manifest rule (its name carries the
`-rust-manifest` suffix, enforced on deserialization). -/
structure BuckManifestRule where
  rule : FbcodeBuckRule
deriving DecidableEq, Repr

/-- Model of `TryFrom<BuckManifestRule> for FbcodeBuckRule`
(`src/buck_processing/rules.rs`): strip the `-rust-manifest` suffix or
fail. -/
def FbcodeBuckRule.try_from (r : BuckManifestRule) :
    Except String FbcodeBuckRule :=
  if strEndsWith r.rule.name RUST_MANIFEST_SFX then
    .ok
      { path := r.rule.path
        name := strDropRight r.rule.name RUST_MANIFEST_SFX.length }
  else .error "BuckManifestRule name did not end in -rust-manifest"

/-- Processing of one batch entry inside `BuckManifestLoader::load`
(`src/buck_processing/loader.rs`): the artifact must parse, the manifest
rule name must convert back to a plain rule, and the manifest's declared
name must equal that rule's name. -/
def loadOne (e : BuckManifestRule × Option RawBuckManifest) :
    Except String (FbcodeBuckRule × RawBuckManifest) :=
  match e.2 with
  | none => .error "While reading manifest file"
  | some parsed =>
      match FbcodeBuckRule.try_from e.1 with
      | .error err => .error err
      | .ok rule =>
          if rule.name = parsed.name then .ok (rule, parsed)
          else .error "Name of the rule is not the same as declared in manifest"

/-- Model of `BuckManifestLoader::load` (`src/buck_processing/loader.rs`).
The batched `build` step is abstracted by its output: a list of
`(manifest rule, artifact)` pairs, where an artifact is the result of
reading and deserializing the built file (`none` models a read or parse
failure).  Every entry goes through `loadOne`; any failure fails the whole
batch (the Rust `FuturesUnordered::try_collect`), otherwise the complete
rule-to-manifest map is returned. -/
def BuckManifestLoader.load :
    List (BuckManifestRule × Option RawBuckManifest) →
      Except String (List (FbcodeBuckRule × RawBuckManifest))
  | [] => .ok []
  | e :: rest =>
      match loadOne e with
      | .error err => .error err
      | .ok pair =>
          match BuckManifestLoader.load rest with
          | .error err => .error err
          | .ok pairs => .ok (pair :: pairs)

/-- Whether one batch entry loads successfully: the artifact parsed, the rule
name carries the manifest suffix, and the stripped rule name matches the
manifest's declared name. -/
def loadEntryOk (e : BuckManifestRule × Option RawBuckManifest) : Bool :=
  match e.2 with
  | none => false
  | some parsed =>
      strEndsWith e.1.rule.name RUST_MANIFEST_SFX &&
        strDropRight e.1.rule.name RUST_MANIFEST_SFX.length == parsed.name

/-- The successful parse of one batch entry (defined exactly when
`loadEntryOk`). -/
def loadEntryResult (e : BuckManifestRule × Option RawBuckManifest) :
    Option (FbcodeBuckRule × RawBuckManifest) :=
  match e.2 with
  | none => none
  | some parsed =>
      if loadEntryOk e then
        some
          ({ path := e.1.rule.path
             name := strDropRight e.1.rule.name RUST_MANIFEST_SFX.length },
            parsed)
      else none

/-! ## Project catalog and selection (`config.rs`)

Paths (`PathInFbcode`) are modelled as lists of components, so Rust's
`Path::starts_with` is component-wise list prefix.  A glob `Pattern` is
modelled extensionally as its matching function on paths: the `glob` crate's
matcher is an external collaborator, and every property below is independent
of the pattern language itself. -/

/-- Model of `PathInFbcode` (`src/paths.rs`) as path components. -/
abbrev PathInFbcode := List String

/-- Model of `glob::Pattern` by its `matches_path` function. -/
abbrev GlobPattern := PathInFbcode → Bool

/-- Projection of `OssGitConfig` (`src/config.rs`) to the field consulted by
`covers_path`: the optional `public_cargo_dir`.  The git url / branch / tag /
rev fields feed only the (abstracted) fbcode-dependency resolver. -/
structure OssGitConfig where
  public_cargo_dir : Option PathInFbcode

/-- Projection of `ProjectConf` (`src/config.rs`) to the fields consulted by
path coverage and selection: name, roots, include / exclude globs, declared
project dependencies and the OSS config. -/
structure ProjectConf where
  name : String
  roots : List PathInFbcode
  include_globs : List GlobPattern
  exclude_globs : List GlobPattern
  dependencies : List String
  oss_git_config : Option OssGitConfig

/-- Model of `ProjectConf::covers_path` (`src/config.rs`): any matching
exclude glob rejects; otherwise a matching include glob, a root prefix, or a
`public_cargo_dir` prefix accepts. -/
def ProjectConf.covers_path (c : ProjectConf) (path : PathInFbcode) : Bool :=
  if c.exclude_globs.any (fun p => p path) then false
  else if c.include_globs.any (fun p => p path) then true
  else if c.roots.any (fun root => root.isPrefixOf path) then true
  else
    match c.oss_git_config with
    | some conf =>
        match conf.public_cargo_dir with
        | some public_dir => public_dir.isPrefixOf path
        | none => false
    | none => false

/-- Modelled from the spec: path coverage as claim C8 words it — "a project
covers a path if and only if the path is matched by an include glob and not
matched by any exclude glob".  This definition exists to be compared with
`ProjectConf.covers_path`, the code's actual predicate. -/
def coversPathPerClaim (c : ProjectConf) (path : PathInFbcode) : Bool :=
  c.include_globs.any (fun p => p path) &&
    !(c.exclude_globs.any (fun p => p path))

/-- One round of the reverse-dependency search of
`AllProjects::select_based_on_paths_and_names` (`src/config.rs`): every
project declaring a dependency on a frontier element.  The Rust collects
into a `HashSet`, hence `dedup`. -/
def reverseStep (projects : List ProjectConf) (frontier : List String) :
    List String :=
  ((projects.filter (fun c =>
      frontier.any (fun p => c.dependencies.contains p))).map
    (fun c => c.name)).dedup

/-- The new names discovered by one reverse round: `reverseStep` minus the
already-selected ones (the `difference` call of the Rust loop). -/
def reverseNext (projects : List ProjectConf)
    (selected frontier : List String) : List String :=
  (reverseStep projects frontier).filter (fun n => ¬ selected.contains n)

/-- The reverse-closure loop of `select_based_on_paths_and_names`: repeat
`reverseStep`, removing already-selected names and extending the selection,
until the frontier is empty.  The Rust `while` loop terminates because the
selection grows inside a finite catalog; `fuel` makes that bound explicit
(callers pass `projects.length + 1`, which the proofs show suffices). -/
def reverseLoop (projects : List ProjectConf) :
    Nat → List String → List String → List String
  | 0, selected, _ => selected
  | _ + 1, selected, [] => selected
  | fuel + 1, selected, frontier =>
      reverseLoop projects fuel
        (selected ++ reverseNext projects selected frontier)
        (reverseNext projects selected frontier)

/-- The dependencies of a catalog project, looked up by name
(`self.projects().get(p).unwrap().dependencies()`; the `unwrap` cannot fail
on inputs satisfying the catalog validation, matching the hypotheses of the
selection theorems). -/
def dependenciesOf (projects : List ProjectConf) (name : String) :
    List String :=
  match projects.find? (fun c => c.name = name) with
  | some c => c.dependencies
  | none => []

/-- One round of the forward-dependency search of
`select_based_on_paths_and_names`: all dependencies of frontier projects.
The Rust collects into a `HashSet`, hence `dedup`. -/
def forwardStep (projects : List ProjectConf) (frontier : List String) :
    List String :=
  (frontier.flatMap (fun p => dependenciesOf projects p)).dedup

/-- The new names discovered by one forward round: `forwardStep` minus the
already-selected ones. -/
def forwardNext (projects : List ProjectConf)
    (selected frontier : List String) : List String :=
  (forwardStep projects frontier).filter (fun n => ¬ selected.contains n)

/-- The forward-closure loop of `select_based_on_paths_and_names`, with the
same fuel discipline as `reverseLoop`. -/
def forwardLoop (projects : List ProjectConf) :
    Nat → List String → List String → List String
  | 0, selected, _ => selected
  | _ + 1, selected, [] => selected
  | fuel + 1, selected, frontier =>
      forwardLoop projects fuel
        (selected ++ forwardNext projects selected frontier)
        (forwardNext projects selected frontier)

/-- Model of `AllProjects::select_based_on_paths_and_names`
(`src/config.rs`), returning the set of selected project names (the Rust
returns the corresponding `ProjectConf`s, sorted by name): the
reverse-dependency closure of the path-covering projects, united with the
forward-dependency closure of the requested names; a requested name missing
from the catalog is an error. -/
def select_based_on_paths_and_names (projects : List ProjectConf)
    (paths : List PathInFbcode) (names : List String) :
    Except String (List String) :=
  let selected_by_path0 :=
    ((projects.filter (fun c => paths.any (fun p => c.covers_path p))).map
      (fun c => c.name)).dedup
  let selected_by_path :=
    reverseLoop projects (projects.length + 1) selected_by_path0
      selected_by_path0
  if names.all (fun n => projects.any (fun c => c.name = n)) then
    let selected_by_name :=
      forwardLoop projects (projects.length + 1) names.dedup names.dedup
    .ok (selected_by_path ++ selected_by_name)
  else .error "Project not recognised"

/-- The reverse fixpoint closure described by claim C5: starting from the
projects covering an input path, repeatedly add any project declaring a
dependency on an already-selected project. -/
inductive ReverseClosure (projects : List ProjectConf)
    (paths : List PathInFbcode) : String → Prop where
  | base (c : ProjectConf) (hc : c ∈ projects)
      (hp : ∃ p ∈ paths, c.covers_path p = true) :
      ReverseClosure projects paths c.name
  | step (c : ProjectConf) (hc : c ∈ projects) (q : String)
      (hq : ReverseClosure projects paths q) (hd : q ∈ c.dependencies) :
      ReverseClosure projects paths c.name

/-- The forward fixpoint closure described by claim C5: starting from the
requested names, repeatedly add every declared dependency of an
already-selected project. -/
inductive ForwardClosure (projects : List ProjectConf)
    (names : List String) : String → Prop where
  | base (n : String) (hn : n ∈ names) : ForwardClosure projects names n
  | step (c : ProjectConf) (hc : c ∈ projects)
      (hcn : ForwardClosure projects names c.name) (d : String)
      (hd : d ∈ c.dependencies) : ForwardClosure projects names d

/-! ## Association-list lemmas -/

/-- Round trip: converting a detail to a dependency and back is the
identity.  (When the terse `Simple` form is produced, every other field was
at its default.) -/
theorem to_detail_of_detail_to_dep (d : DependencyDetail) :
    dependency_to_dependency_detail (dependency_detail_to_dependency d) = d := by
  unfold dependency_detail_to_dependency
  split
  case h_1 v hv =>
    split
    case isTrue hc =>
      obtain ⟨h1, h2, h3, h4, h5, h6, h7, h8, h9, h10, h11, h12, h13⟩ := hc
      simp only [dependency_to_dependency_detail]
      cases d
      simp_all [DependencyDetail.default]
    case isFalse hc => rfl
  case h_2 => rfl

theorem lookupA_insertA_self {α : Type} (l : List (String × α)) (k : String)
    (v : α) : lookupA (insertA l k v) k = some v := by
  induction l with
  | nil => simp [insertA, lookupA]
  | cons e t ih =>
      by_cases h : e.1 = k
      · simp [insertA, h, lookupA]
      · simp [insertA, h, lookupA, ih]

theorem lookupA_insertA_ne {α : Type} (l : List (String × α))
    (k k' : String) (v : α) (h : k' ≠ k) :
    lookupA (insertA l k v) k' = lookupA l k' := by
  have hk : k ≠ k' := fun he => h he.symm
  induction l with
  | nil => simp [insertA, lookupA, hk]
  | cons e t ih =>
      by_cases he : e.1 = k
      · subst he
        simp [insertA, lookupA, hk]
      · simp only [insertA, if_neg he]
        by_cases he' : e.1 = k'
        · simp [lookupA, he']
        · simp [lookupA, he', ih]

theorem mem_of_lookupA {α : Type} {l : List (String × α)} {k : String}
    {v : α} (h : lookupA l k = some v) : (k, v) ∈ l := by
  induction l with
  | nil => simp [lookupA] at h
  | cons e t ih =>
      by_cases he : e.1 = k
      · simp only [lookupA, if_pos he] at h
        cases h
        cases e with
        | mk k1 v1 =>
            cases he
            exact List.mem_cons_self _ _
      · simp only [lookupA, if_neg he] at h
        exact List.mem_cons_of_mem _ (ih h)

theorem lookupA_eq_none {α : Type} {l : List (String × α)} {k : String} :
    lookupA l k = none ↔ k ∉ l.map Prod.fst := by
  induction l with
  | nil => simp [lookupA]
  | cons e t ih =>
      by_cases he : e.1 = k
      · simp [lookupA, he]
      · have hk : k ≠ e.1 := fun h => he h.symm
        simp [lookupA, he, ih, hk]

theorem lookupA_of_mem {α : Type} {l : List (String × α)} {k : String}
    {v : α} (hnd : KeysNodup l) (h : (k, v) ∈ l) : lookupA l k = some v := by
  induction l with
  | nil => simp at h
  | cons e t ih =>
      simp only [KeysNodup, List.map_cons, List.nodup_cons] at hnd
      rcases List.mem_cons.mp h with h | h
      · subst h
        simp [lookupA]
      · have he : e.1 ≠ k := by
          intro hek
          exact hnd.1 (hek ▸ List.mem_map_of_mem Prod.fst h)
        simp only [lookupA, if_neg he]
        exact ih hnd.2 h

theorem keys_insertA {α : Type} (l : List (String × α)) (k : String)
    (v : α) :
    (insertA l k v).map Prod.fst =
      if k ∈ l.map Prod.fst then l.map Prod.fst
      else l.map Prod.fst ++ [k] := by
  induction l with
  | nil => simp [insertA]
  | cons e t ih =>
      by_cases he : e.1 = k
      · simp [insertA, he]
      · have hk : ¬ k = e.1 := fun h => he h.symm
        by_cases hmem : k ∈ t.map Prod.fst
        · simp [insertA, he, ih, hmem, hk]
        · simp [insertA, he, ih, hmem, hk]

theorem keysNodup_insertA {α : Type} (l : List (String × α)) (k : String)
    (v : α) (h : KeysNodup l) : KeysNodup (insertA l k v) := by
  unfold KeysNodup at *
  rw [keys_insertA]
  by_cases hmem : k ∈ l.map Prod.fst
  · simpa [hmem] using h
  · simp only [hmem, if_false]
    simp [List.nodup_append, h, hmem]

theorem lookupA_append {α : Type} (l₁ l₂ : List (String × α)) (k : String) :
    lookupA (l₁ ++ l₂) k =
      match lookupA l₁ k with
      | some v => some v
      | none => lookupA l₂ k := by
  induction l₁ with
  | nil => simp [lookupA]
  | cons e t ih =>
      by_cases he : e.1 = k
      · simp [lookupA, he]
      · simp [lookupA, he, ih]

theorem lookupA_map_value {α β : Type} (l : List (String × α))
    (f : String → α → β) (k : String) :
    lookupA (l.map (fun e => (e.1, f e.1 e.2))) k =
      (lookupA l k).map (f k) := by
  induction l with
  | nil => simp [lookupA]
  | cons e t ih =>
      by_cases he : e.1 = k
      · subst he
        simp [lookupA]
      · simp [lookupA, he, ih]

theorem lookupA_filter {α : Type} (l : List (String × α))
    (p : String × α → Bool) (k : String) (hnd : KeysNodup l) :
    lookupA (l.filter p) k =
      match lookupA l k with
      | some v => if p (k, v) then some v else none
      | none => none := by
  induction l with
  | nil => simp [lookupA]
  | cons e t ih =>
      simp only [KeysNodup, List.map_cons, List.nodup_cons] at hnd
      by_cases he : e.1 = k
      · have hnone : lookupA (t.filter p) k = none := by
          rw [lookupA_eq_none]
          intro hin
          rcases List.mem_map.mp hin with ⟨x, hx, hxe⟩
          exact hnd.1
            (he ▸ hxe ▸ List.mem_map_of_mem Prod.fst (List.mem_of_mem_filter hx))
        have hek : (k, e.2) = e := by
          cases e with
          | mk k1 v1 => cases he; rfl
        cases hp : p e
        · simp only [List.filter_cons, hp]
          simp [lookupA, he, hnone, hek, hp]
        · simp [List.filter_cons, hp, lookupA, he, hek]
      · cases hp : p e
        · simp [List.filter_cons, hp, lookupA, he, ih hnd.2]
        · simp [List.filter_cons, hp, lookupA, he, ih hnd.2]

/-! ## Claim C8 - path coverage -/

/-- Claim C8, counterexample: the configured `roots` also grant coverage, so
a project with a root `a`, no include globs and no exclude globs covers the
path `a/b/c` even though no include glob matches it; coverage is therefore
not equivalent to "matched by an include glob and not matched by any exclude
glob". -/
theorem covers_path_claim_counterexample :
    ProjectConf.covers_path
        { name := "proj", roots := [["a"]], include_globs := [],
          exclude_globs := [], dependencies := [], oss_git_config := none }
        ["a", "b", "c"] = true ∧
      coversPathPerClaim
        { name := "proj", roots := [["a"]], include_globs := [],
          exclude_globs := [], dependencies := [], oss_git_config := none }
        ["a", "b", "c"] = false := by
  constructor
  · rfl
  · rfl

/-- Claim C8 (amended): a project covers a path if and only if the path is
not matched by any exclude glob (exclude always wins) and is either matched
by an include glob, or extends one of the project's roots, or extends the
project's OSS `public_cargo_dir`. -/
theorem covers_path_characterization (c : ProjectConf)
    (path : PathInFbcode) :
    c.covers_path path =
      (!(c.exclude_globs.any (fun p => p path)) &&
        (c.include_globs.any (fun p => p path) ||
          c.roots.any (fun root => root.isPrefixOf path) ||
          ((c.oss_git_config.bind (fun conf => conf.public_cargo_dir)).elim
            false (fun public_dir => public_dir.isPrefixOf path)))) := by
  unfold ProjectConf.covers_path
  by_cases hexc : c.exclude_globs.any (fun p => p path)
  · simp [hexc]
  · by_cases hinc : c.include_globs.any (fun p => p path)
    · simp [hexc, hinc]
    · by_cases hroot : c.roots.any (fun root => root.isPrefixOf path)
      · simp [hexc, hinc, hroot]
      · cases hc : c.oss_git_config with
        | none => simp [hexc, hinc, hroot, hc]
        | some conf =>
            cases hd : conf.public_cargo_dir with
            | none => simp [hexc, hinc, hroot, hc, hd]
            | some public_dir => simp [hexc, hinc, hroot, hc, hd]

/-! ## Claim C6 - tri-state field overrides -/

/-- Claim C6, counterexample: an override with every field set to inherit
(the default override) still changes the dependency it is applied to — the
`unstable` table of extra keys is unconditionally cleared by
`apply_override` — so it is not the case that fields not mentioned by the
override are left unchanged.  (Moreover `features`, `optional` and
`default_features` are plain options in `CargoDependencyOverride`, with no
explicitly-cleared state at all.) -/
theorem apply_override_claim_counterexample :
    apply_override { third_party_crates := [], targets_to_projects := [] } []
        "foo"
        (.Detailed
          { DependencyDetail.default with
            version := some "1.0"
            unstable := [("key", "value")] })
        CargoDependencyOverride.default
      ≠ .Detailed
          { DependencyDetail.default with
            version := some "1.0"
            unstable := [("key", "value")] } := by
  decide

/-- Claim C6 (amended): `apply_override` treats the nine `Option`-typed
dependency fields (version, registry, registry-index, path, git, branch,
tag, rev, package) as tri-state — inherit leaves the derived value, an
explicit clear removes it, an explicit set replaces it — and the `features`,
`optional` and `default-features` fields as two-state (inherit or set);
the non-overridable `inherited` flag passes through unchanged while the
non-overridable `unstable` table is always cleared.  This is stated as one
equation on the detail of the emitted dependency, for every key other than
the back-filled `cxx-build` pseudo-dependency. -/
theorem apply_override_tristate (cargo_generator : CargoGenerator)
    (optional_deps : List String) (key : String) (dep : Dependency)
    (dep_override : CargoDependencyOverride) (h : key ≠ "cxx-build") :
    dependency_to_dependency_detail
        (apply_override cargo_generator optional_deps key dep dep_override) =
      { version :=
          (dep_override.version).getD
            (dependency_to_dependency_detail dep).version
        registry :=
          (dep_override.registry).getD
            (dependency_to_dependency_detail dep).registry
        registry_index :=
          (dep_override.registry_index).getD
            (dependency_to_dependency_detail dep).registry_index
        path :=
          (dep_override.path).getD (dependency_to_dependency_detail dep).path
        inherited := (dependency_to_dependency_detail dep).inherited
        git :=
          (dep_override.git).getD (dependency_to_dependency_detail dep).git
        branch :=
          (dep_override.branch).getD
            (dependency_to_dependency_detail dep).branch
        tag :=
          (dep_override.tag).getD (dependency_to_dependency_detail dep).tag
        rev :=
          (dep_override.rev).getD (dependency_to_dependency_detail dep).rev
        features :=
          (dep_override.features).getD
            (dependency_to_dependency_detail dep).features
        optional :=
          (dep_override.optional).getD
            (dependency_to_dependency_detail dep).optional
        default_features :=
          (dep_override.default_features).getD
            (dependency_to_dependency_detail dep).default_features
        package :=
          (dep_override.package).getD
            (dependency_to_dependency_detail dep).package
        unstable := [] } := by
  unfold apply_override
  simp only [if_neg h]
  exact to_detail_of_detail_to_dep _

/-- Witness for `apply_override_tristate`: at the key `serde`, everything is
visible at once — the inherit states keep the derived version absent or
present, the clear state removes the derived path, the set state replaces
the tag. -/
theorem apply_override_tristate_witness :
    dependency_to_dependency_detail
        (apply_override { third_party_crates := [], targets_to_projects := [] }
          [] "serde"
          (.Detailed
            { DependencyDetail.default with
              version := some "1.0"
              path := some "../serde"
              tag := some "old" })
          { CargoDependencyOverride.default with
            path := some none
            tag := some (some "new") }) =
      { DependencyDetail.default with
        version := some "1.0"
        path := none
        tag := some "new" } := by
  refine (apply_override_tristate
      { third_party_crates := [], targets_to_projects := [] } [] "serde"
      (.Detailed
        { DependencyDetail.default with
          version := some "1.0"
          path := some "../serde"
          tag := some "old" })
      { CargoDependencyOverride.default with
        path := some none
        tag := some (some "new") }
      (by decide)).trans ?_
  rfl

/-! ## Claim C7 - the cxx-build version back-fill -/

/-- Claim C7: whenever the third-party catalog resolves the crate `cxx`, the
version emitted for a dependency under the key `cxx-build` equals the
catalog's resolved version of `cxx`, whatever the derived dependency's own
version was and whatever version (if any) a field-level override sets. -/
theorem apply_override_cxx_build (cargo_generator : CargoGenerator)
    (optional_deps : List String) (dep : Dependency)
    (dep_override : CargoDependencyOverride) (cxx_dep : Dependency)
    (h : lookupA cargo_generator.third_party_crates "cxx" = some cxx_dep) :
    (dependency_to_dependency_detail
        (apply_override cargo_generator optional_deps "cxx-build" dep
          dep_override)).version =
      (dependency_to_dependency_detail cxx_dep).version := by
  unfold apply_override
  simp only [if_pos rfl, get_third_party_dependency, h,
    to_detail_of_detail_to_dep, detail_to_dep]
  rfl

/-- Witness for `apply_override_cxx_build`: with `cxx` resolved at version
`1.0.119` in the catalog, a `cxx-build` entry overridden to version `9.9`
still comes out at `1.0.119`. -/
theorem apply_override_cxx_build_witness :
    (dependency_to_dependency_detail
        (apply_override
          { third_party_crates := [("cxx", .Simple "1.0.119")]
            targets_to_projects := [] }
          [] "cxx-build" (.Simple "2.0")
          { CargoDependencyOverride.default with
            version := some (some "9.9") })).version = some "1.0.119" := by
  refine (apply_override_cxx_build
      { third_party_crates := [("cxx", .Simple "1.0.119")]
        targets_to_projects := [] }
      [] (.Simple "2.0")
      { CargoDependencyOverride.default with version := some (some "9.9") }
      (.Simple "1.0.119") (by rfl)).trans ?_
  rfl

/-! ## Lemmas about the dependency-set pipeline -/

theorem countKeyA_append {α : Type} (l₁ l₂ : List (String × α))
    (k : String) :
    countKeyA (l₁ ++ l₂) k = countKeyA l₁ k + countKeyA l₂ k := by
  simp [countKeyA, List.filter_append]

theorem countKeyA_map_value {α β : Type} (l : List (String × α))
    (f : String → α → β) (k : String) :
    countKeyA (l.map (fun e => (e.1, f e.1 e.2))) k = countKeyA l k := by
  induction l with
  | nil => rfl
  | cons e t ih =>
      simp only [List.map_cons, countKeyA, List.filter_cons] at *
      by_cases he : e.1 = k
      · simp [he, ih]
      · simp [he, ih]

theorem countKeyA_of_lookupA {α : Type} (l : List (String × α)) (k : String)
    (v : α) (hnd : KeysNodup l) (h : lookupA l k = some v) :
    countKeyA l k = 1 := by
  induction l with
  | nil => simp [lookupA] at h
  | cons e t ih =>
      simp only [KeysNodup, List.map_cons, List.nodup_cons] at hnd
      by_cases he : e.1 = k
      · have htail : countKeyA t k = 0 := by
          simp only [countKeyA, List.length_eq_zero,
            List.filter_eq_nil_iff]
          intro x hx
          simp only [decide_eq_true_eq]
          intro hxk
          exact hnd.1 (he ▸ hxk ▸ List.mem_map_of_mem Prod.fst hx)
        have htail' : List.filter (fun e => decide (e.1 = k)) t = [] := by
          simpa [countKeyA, List.length_eq_zero] using htail
        simp [countKeyA, List.filter_cons, he, htail']
      · simp only [lookupA, if_neg he] at h
        simp only [countKeyA, List.filter_cons, he]
        simpa [countKeyA] using ih hnd.2 h

theorem addToDeps_some {ds : DepsSet} {k : String} {old : Dependency}
    (v : Dependency) (h : lookupA ds k = some old) :
    addToDeps ds k v =
      if v = old then .ok (insertA ds k v)
      else .error ("Found duplicate key " ++ k) := by
  unfold addToDeps
  rw [h]

theorem addToDeps_none {ds : DepsSet} {k : String} (v : Dependency)
    (h : lookupA ds k = none) :
    addToDeps ds k v = .ok (insertA ds k v) := by
  unfold addToDeps
  rw [h]

theorem addToDeps_ok_insert {ds ds' : DepsSet} {k : String}
    {v : Dependency} (h : addToDeps ds k v = .ok ds') :
    ds' = insertA ds k v := by
  cases hl : lookupA ds k with
  | some old =>
      rw [addToDeps_some v hl] at h
      by_cases hv : v = old
      · rw [if_pos hv] at h
        cases h
        rfl
      · rw [if_neg hv] at h
        cases h
  | none =>
      rw [addToDeps_none v hl] at h
      cases h
      rfl

theorem keysNodup_addToDeps (ds ds' : DepsSet) (k : String)
    (v : Dependency) (hnd : KeysNodup ds) (h : addToDeps ds k v = .ok ds') :
    KeysNodup ds' := by
  rw [addToDeps_ok_insert h]
  exact keysNodup_insertA ds k v hnd

theorem computeLoop_cons_err {s : ComputeDependencies} {c : Contribution}
    {e : String} (rest : List Contribution) (ds : DepsSet)
    (hr : resolveContribution s c = .error e) :
    computeLoop s (c :: rest) ds = .error e := by
  unfold computeLoop
  rw [hr]

theorem computeLoop_cons_none {s : ComputeDependencies} {c : Contribution}
    (rest : List Contribution) (ds : DepsSet)
    (hr : resolveContribution s c = .ok none) :
    computeLoop s (c :: rest) ds = computeLoop s rest ds := by
  simp only [computeLoop, hr]

theorem computeLoop_cons_some {s : ComputeDependencies} {c : Contribution}
    {k : String} {v : Dependency} (rest : List Contribution) (ds : DepsSet)
    (hr : resolveContribution s c = .ok (some (k, v))) :
    computeLoop s (c :: rest) ds =
      match addToDeps ds k v with
      | .error e => .error e
      | .ok ds₁ => computeLoop s rest ds₁ := by
  simp only [computeLoop, hr]

theorem addAll_cons (k : String) (v : Dependency)
    (rest : List (String × Dependency)) (ds : DepsSet) :
    addAll ((k, v) :: rest) ds =
      match addToDeps ds k v with
      | .error e => .error e
      | .ok ds₁ => addAll rest ds₁ := rfl

theorem keysNodup_computeLoop (s : ComputeDependencies)
    (cs : List Contribution) :
    ∀ ds ds', KeysNodup ds → computeLoop s cs ds = .ok ds' →
      KeysNodup ds' := by
  induction cs with
  | nil =>
      intro ds ds' h he
      unfold computeLoop at he
      cases he
      exact h
  | cons c rest ih =>
      intro ds ds' h he
      cases hr : resolveContribution s c with
      | error e => rw [computeLoop_cons_err rest ds hr] at he; cases he
      | ok o =>
          cases o with
          | none =>
              rw [computeLoop_cons_none rest ds hr] at he
              exact ih ds ds' h he
          | some kv =>
              cases kv with
              | mk k v =>
                  rw [computeLoop_cons_some rest ds hr] at he
                  cases hkv : addToDeps ds k v with
                  | error e => rw [hkv] at he; cases he
                  | ok ds₁ =>
                      rw [hkv] at he
                      exact ih ds₁ ds' (keysNodup_addToDeps ds ds₁ k v h hkv) he

theorem keysNodup_buildDepsSet (s : ComputeDependencies) (ds₀ : DepsSet)
    (h : buildDepsSet s = .ok ds₀) : KeysNodup ds₀ :=
  keysNodup_computeLoop s (contributionsOf s) [] ds₀ (by simp [KeysNodup]) h

theorem keysNodup_applyStage (s : ComputeDependencies) (ds₀ : DepsSet)
    (hnd : KeysNodup ds₀) (hov : KeysNodup s.dependencies_override) :
    KeysNodup (applyOverridesStage s ds₀) := by
  unfold applyOverridesStage KeysNodup
  rw [List.map_append, List.nodup_append]
  refine ⟨?_, ?_, ?_⟩
  · rw [List.map_map]
    have hsub :
        (s.dependencies_override.filter
            (fun e => (lookupA ds₀ e.1).isNone)).map
            (Prod.fst ∘ fun e =>
              (e.1,
                apply_override s.cargo_generator s.optional_deps e.1
                  (.Detailed DependencyDetail.default) e.2))
          = (s.dependencies_override.filter
              (fun e => (lookupA ds₀ e.1).isNone)).map Prod.fst := by
      simp [Function.comp]
    rw [hsub]
    exact ((List.filter_sublist _).map Prod.fst).nodup hov
  · rw [List.map_map]
    have hsub :
        ds₀.map
            (Prod.fst ∘ fun e =>
              (e.1,
                apply_override s.cargo_generator s.optional_deps e.1 e.2
                  ((lookupA s.dependencies_override e.1).getD
                    CargoDependencyOverride.default)))
          = ds₀.map Prod.fst := by
      simp [Function.comp]
    rw [hsub]
    exact hnd
  · intro a ha hb
    rw [List.map_map] at ha hb
    rcases List.mem_map.mp ha with ⟨e, he, hea⟩
    have hp := List.of_mem_filter he
    simp only [Option.isNone_iff_eq_none, decide_eq_true_eq] at hp
    have hea' : e.1 = a := by simpa [Function.comp] using hea
    have hae : lookupA ds₀ a = none := hea' ▸ hp
    rcases List.mem_map.mp hb with ⟨e', he', heb⟩
    have heb' : e'.1 = a := by simpa [Function.comp] using heb
    have : a ∈ ds₀.map Prod.fst :=
      List.mem_map.mpr ⟨e', he', heb'⟩
    exact (lookupA_eq_none.mp hae) this

theorem computeLoop_eq_addAll (s : ComputeDependencies) :
    ∀ (cs : List Contribution)
      (os : List (Option (String × Dependency))) (ds : DepsSet),
      resolveAllLoop s cs = .ok os →
      computeLoop s cs ds = addAll (os.filterMap id) ds := by
  intro cs
  induction cs with
  | nil =>
      intro os ds h
      unfold resolveAllLoop at h
      cases h
      rfl
  | cons c rest ih =>
      intro os ds h
      unfold resolveAllLoop at h
      cases hr : resolveContribution s c with
      | error e => rw [hr] at h; cases h
      | ok o =>
          rw [hr] at h
          cases hrest : resolveAllLoop s rest with
          | error e => rw [hrest] at h; cases h
          | ok os' =>
              rw [hrest] at h
              cases h
              cases o with
              | none =>
                  rw [computeLoop_cons_none rest ds hr]
                  simp only [List.filterMap_cons, id]
                  exact ih os' ds hrest
              | some kv =>
                  cases kv with
                  | mk k v =>
                      rw [computeLoop_cons_some rest ds hr]
                      simp only [List.filterMap_cons, id]
                      rw [addAll_cons]
                      cases hkv : addToDeps ds k v with
                      | error e => rfl
                      | ok ds₁ => exact ih os' ds₁ hrest

theorem addAll_stored (k : String) (w : Dependency) :
    ∀ (rest : List (String × Dependency)) (ds : DepsSet),
      lookupA ds k = some w →
      ∀ v, (k, v) ∈ rest → v ≠ w → ∃ e, addAll rest ds = .error e := by
  intro rest
  induction rest with
  | nil =>
      intro ds _ v hv
      simp at hv
  | cons e t ih =>
      intro ds hds v hv hvw
      cases e with
      | mk k' v' =>
          rcases List.mem_cons.mp hv with hv | hv
          · rw [Prod.mk.injEq] at hv
            obtain ⟨hk, hveq⟩ := hv
            subst hk
            subst hveq
            refine ⟨"Found duplicate key " ++ k, ?_⟩
            rw [addAll_cons, addToDeps_some v hds, if_neg hvw]
          · by_cases hk : k' = k
            · subst hk
              rw [addAll_cons, addToDeps_some v' hds]
              by_cases hv' : v' = w
              · rw [if_pos hv']
                exact ih (insertA ds k' v')
                  (hv' ▸ lookupA_insertA_self ds k' v') v hv hvw
              · rw [if_neg hv']
                exact ⟨"Found duplicate key " ++ k', rfl⟩
            · rw [addAll_cons]
              have hpres : lookupA (insertA ds k' v') k = some w :=
                (lookupA_insertA_ne ds k' k v' (fun h => hk h.symm)).trans hds
              cases hl : lookupA ds k' with
              | some old =>
                  rw [addToDeps_some v' hl]
                  by_cases hv' : v' = old
                  · rw [if_pos hv']
                    exact ih (insertA ds k' v') hpres v hv hvw
                  · rw [if_neg hv']
                    exact ⟨"Found duplicate key " ++ k', rfl⟩
              | none =>
                  rw [addToDeps_none v' hl]
                  exact ih (insertA ds k' v') hpres v hv hvw

theorem addAll_conflict (k : String) (v₁ v₂ : Dependency) :
    ∀ (l : List (String × Dependency)) (ds : DepsSet),
      (k, v₁) ∈ l → (k, v₂) ∈ l → v₁ ≠ v₂ →
      ∃ e, addAll l ds = .error e := by
  intro l
  induction l with
  | nil =>
      intro ds h₁
      simp at h₁
  | cons e t ih =>
      intro ds h₁ h₂ hne
      cases e with
      | mk k' v' =>
          rcases List.mem_cons.mp h₁ with h₁e | h₁t <;>
            rcases List.mem_cons.mp h₂ with h₂e | h₂t
          · rw [Prod.mk.injEq] at h₁e h₂e
            exact absurd (h₁e.2.trans h₂e.2.symm) hne
          · rw [Prod.mk.injEq] at h₁e
            obtain ⟨hk, hveq⟩ := h₁e
            subst hk
            subst hveq
            rw [addAll_cons]
            cases hl : lookupA ds k with
            | some old =>
                rw [addToDeps_some v₁ hl]
                by_cases hv' : v₁ = old
                · rw [if_pos hv']
                  exact addAll_stored k v₁ t (insertA ds k v₁)
                    (lookupA_insertA_self ds k v₁) v₂ h₂t
                    (fun h => hne h.symm)
                · rw [if_neg hv']
                  exact ⟨"Found duplicate key " ++ k, rfl⟩
            | none =>
                rw [addToDeps_none v₁ hl]
                exact addAll_stored k v₁ t (insertA ds k v₁)
                  (lookupA_insertA_self ds k v₁) v₂ h₂t (fun h => hne h.symm)
          · rw [Prod.mk.injEq] at h₂e
            obtain ⟨hk, hveq⟩ := h₂e
            subst hk
            subst hveq
            rw [addAll_cons]
            cases hl : lookupA ds k with
            | some old =>
                rw [addToDeps_some v₂ hl]
                by_cases hv' : v₂ = old
                · rw [if_pos hv']
                  exact addAll_stored k v₂ t (insertA ds k v₂)
                    (lookupA_insertA_self ds k v₂) v₁ h₁t hne
                · rw [if_neg hv']
                  exact ⟨"Found duplicate key " ++ k, rfl⟩
            | none =>
                rw [addToDeps_none v₂ hl]
                exact addAll_stored k v₂ t (insertA ds k v₂)
                  (lookupA_insertA_self ds k v₂) v₁ h₁t hne
          · rw [addAll_cons]
            cases hl : lookupA ds k' with
            | some old =>
                rw [addToDeps_some v' hl]
                by_cases hv' : v' = old
                · rw [if_pos hv']
                  exact ih (insertA ds k' v') h₁t h₂t hne
                · rw [if_neg hv']
                  exact ⟨"Found duplicate key " ++ k', rfl⟩
            | none =>
                rw [addToDeps_none v' hl]
                exact ih (insertA ds k' v') h₁t h₂t hne

theorem addAll_compat :
    ∀ (l : List (String × Dependency)) (ds : DepsSet),
      KeysNodup ds →
      (∀ k v₁ v₂, (k, v₁) ∈ l → (k, v₂) ∈ l → v₁ = v₂) →
      (∀ k v, lookupA ds k = some v →
        (k, v) ∈ l ∨ ∀ v', (k, v') ∉ l) →
      ∃ ds', addAll l ds = .ok ds' ∧ KeysNodup ds' ∧
        (∀ k v, (k, v) ∈ l → lookupA ds' k = some v) ∧
        (∀ k v, lookupA ds' k = some v →
          (k, v) ∈ l ∨ lookupA ds k = some v) ∧
        (∀ k v, lookupA ds k = some v →
          (∃ v', (k, v') ∈ l) ∨ lookupA ds' k = some v) := by
  intro l
  induction l with
  | nil =>
      intro ds hnd _ _
      refine ⟨ds, rfl, hnd, ?_, ?_, ?_⟩
      · intro k v h; simp at h
      · intro k v h; exact Or.inr h
      · intro k v h; exact Or.inr h
  | cons e t ih =>
      intro ds hnd hcompat hcons
      cases e with
      | mk k₀ v₀ =>
          have hstep : addToDeps ds k₀ v₀ = .ok (insertA ds k₀ v₀) := by
            cases hl : lookupA ds k₀ with
            | some old =>
                rcases hcons k₀ old hl with hmem | hnotin
                · have : old = v₀ :=
                    hcompat k₀ old v₀ hmem (List.mem_cons_self _ _)
                  rw [addToDeps_some v₀ hl, if_pos this.symm]
                · exact absurd (List.mem_cons_self _ _) (hnotin v₀)
            | none => exact addToDeps_none v₀ hl
          have hnd₁ : KeysNodup (insertA ds k₀ v₀) :=
            keysNodup_insertA ds k₀ v₀ hnd
          have hcompat' : ∀ k v₁ v₂, (k, v₁) ∈ t → (k, v₂) ∈ t → v₁ = v₂ :=
            fun k v₁ v₂ h₁ h₂ =>
              hcompat k v₁ v₂ (List.mem_cons_of_mem _ h₁)
                (List.mem_cons_of_mem _ h₂)
          have hcons' : ∀ k v, lookupA (insertA ds k₀ v₀) k = some v →
              (k, v) ∈ t ∨ ∀ v', (k, v') ∉ t := by
            intro k v hl
            by_cases hk : k = k₀
            · subst hk
              rw [lookupA_insertA_self] at hl
              cases hl
              by_cases hex : ∃ v', (k, v') ∈ t
              · rcases hex with ⟨v', hv'⟩
                have : v' = v₀ :=
                  hcompat k v' v₀ (List.mem_cons_of_mem _ hv')
                    (List.mem_cons_self _ _)
                exact Or.inl (this ▸ hv')
              · push_neg at hex
                exact Or.inr fun v' hv' => hex v' hv'
            · rw [lookupA_insertA_ne ds k₀ k v₀ hk] at hl
              rcases hcons k v hl with hmem | hnotin
              · rcases List.mem_cons.mp hmem with hmem | hmem
                · rw [Prod.mk.injEq] at hmem
                  exact absurd hmem.1 hk
                · exact Or.inl hmem
              · exact Or.inr fun v' hv' =>
                  hnotin v' (List.mem_cons_of_mem _ hv')
          rcases ih (insertA ds k₀ v₀) hnd₁ hcompat' hcons' with
            ⟨ds', hds', hnd', hin', hout', hpres'⟩
          refine ⟨ds', ?_, hnd', ?_, ?_, ?_⟩
          · rw [addAll_cons, hstep]
            exact hds'
          · intro k v hv
            rcases List.mem_cons.mp hv with hv | hv
            · rw [Prod.mk.injEq] at hv
              obtain ⟨hk, hveq⟩ := hv
              subst hk
              subst hveq
              rcases hpres' k v (lookupA_insertA_self ds k v) with
                ⟨v', hv'⟩ | hl'
              · have : v' = v :=
                  hcompat k v' v (List.mem_cons_of_mem _ hv')
                    (List.mem_cons_self _ _)
                exact hin' k v (this ▸ hv')
              · exact hl'
            · exact hin' k v hv
          · intro k v hv
            rcases hout' k v hv with hmem | hl'
            · exact Or.inl (List.mem_cons_of_mem _ hmem)
            · by_cases hk : k = k₀
              · subst hk
                rw [lookupA_insertA_self] at hl'
                cases hl'
                exact Or.inl (List.mem_cons_self _ _)
              · rw [lookupA_insertA_ne ds k₀ k v₀ hk] at hl'
                exact Or.inr hl'
          · intro k v hv
            by_cases hk : k = k₀
            · subst hk
              exact Or.inl ⟨v₀, List.mem_cons_self _ _⟩
            · have hl₁ : lookupA (insertA ds k₀ v₀) k = some v := by
                rw [lookupA_insertA_ne ds k₀ k v₀ hk]
                exact hv
              rcases hpres' k v hl₁ with ⟨v', hv'⟩ | hl'
              · exact Or.inl ⟨v', List.mem_cons_of_mem _ hv'⟩
              · exact Or.inr hl'

theorem countKeyA_applyStage (s : ComputeDependencies) (ds₀ : DepsSet)
    (k : String) (v : Dependency) (h : lookupA ds₀ k = some v) :
    countKeyA (applyOverridesStage s ds₀) k = countKeyA ds₀ k := by
  unfold applyOverridesStage
  rw [countKeyA_append,
    countKeyA_map_value
      (s.dependencies_override.filter (fun e => (lookupA ds₀ e.1).isNone))
      (fun k ov =>
        apply_override s.cargo_generator s.optional_deps k
          (.Detailed DependencyDetail.default) ov) k,
    countKeyA_map_value ds₀
      (fun k dep =>
        apply_override s.cargo_generator s.optional_deps k dep
          ((lookupA s.dependencies_override k).getD
            CargoDependencyOverride.default)) k]
  have hzero :
      countKeyA
        (s.dependencies_override.filter
          (fun e => (lookupA ds₀ e.1).isNone)) k = 0 := by
    simp only [countKeyA, List.length_eq_zero, List.filter_eq_nil_iff]
    intro e he
    simp only [decide_eq_true_eq]
    intro hek
    have hp := List.of_mem_filter he
    rw [hek] at hp
    simp [h] at hp
  rw [hzero]
  omega

theorem lookupA_applyStage_fresh (s : ComputeDependencies) (ds₀ : DepsSet)
    (key : String) (ov : CargoDependencyOverride)
    (hov : KeysNodup s.dependencies_override)
    (hkey : lookupA ds₀ key = none)
    (hovk : lookupA s.dependencies_override key = some ov) :
    lookupA (applyOverridesStage s ds₀) key =
      some (apply_override s.cargo_generator s.optional_deps key
        (.Detailed DependencyDetail.default) ov) := by
  unfold applyOverridesStage
  rw [lookupA_append]
  have h1 :
      lookupA
        ((s.dependencies_override.filter
            (fun e => (lookupA ds₀ e.1).isNone)).map
          (fun e =>
            (e.1,
              apply_override s.cargo_generator s.optional_deps e.1
                (.Detailed DependencyDetail.default) e.2))) key =
      some (apply_override s.cargo_generator s.optional_deps key
        (.Detailed DependencyDetail.default) ov) := by
    rw [lookupA_map_value
      (s.dependencies_override.filter (fun e => (lookupA ds₀ e.1).isNone))
      (fun k ov =>
        apply_override s.cargo_generator s.optional_deps k
          (.Detailed DependencyDetail.default) ov) key]
    rw [lookupA_filter s.dependencies_override _ key hov, hovk]
    simp [hkey]
  rw [h1]

/-! ## Claim C2 - duplicate-key conflict policy -/

/-- Claim C2: for a dependency-section computation whose contributions (from
regular, named and added-override edges) all resolve, if two contributions
produce the same final key then (a) the computation returns an error whenever
their resolved values differ, and (b) whenever all same-key contributions
carry identical values the computation succeeds with exactly one entry per
contributed key. -/
theorem compute_conflict_policy (s : ComputeDependencies)
    (l : List (String × Dependency))
    (hres : resolvedContributions s = .ok l) :
    (∀ k v₁ v₂, (k, v₁) ∈ l → (k, v₂) ∈ l → v₁ ≠ v₂ →
      ∃ e, ComputeDependencies.compute s = .error e) ∧
    ((∀ k v₁ v₂, (k, v₁) ∈ l → (k, v₂) ∈ l → v₁ = v₂) →
      ∃ ds, ComputeDependencies.compute s = .ok ds ∧
        ∀ k v, (k, v) ∈ l → countKeyA ds k = 1) := by
  unfold resolvedContributions at hres
  cases hos : resolveAllLoop s (contributionsOf s) with
  | error e => rw [hos] at hres; cases hres
  | ok os =>
      rw [hos] at hres
      have hl : os.filterMap id = l := by
        simpa [Except.map] using hres
      have hbuild : buildDepsSet s = addAll l [] := by
        unfold buildDepsSet
        rw [computeLoop_eq_addAll s (contributionsOf s) os [] hos, hl]
      constructor
      · intro k v₁ v₂ h₁ h₂ hne
        rcases addAll_conflict k v₁ v₂ l [] h₁ h₂ hne with ⟨e, he⟩
        refine ⟨e, ?_⟩
        unfold ComputeDependencies.compute
        rw [hbuild, he]
        rfl
      · intro hcompat
        rcases addAll_compat l [] (by simp [KeysNodup]) hcompat
            (by intro k v h; simp [lookupA] at h) with
          ⟨ds₀, hds₀, hnd₀, hin₀, _, _⟩
        refine ⟨applyOverridesStage s ds₀, ?_, ?_⟩
        · unfold ComputeDependencies.compute
          rw [hbuild, hds₀]
          rfl
        · intro k v hkv
          rw [countKeyA_applyStage s ds₀ k v (hin₀ k v hkv)]
          exact countKeyA_of_lookupA ds₀ k v hnd₀ (hin₀ k v hkv)

/-- Witness for `compute_conflict_policy`: a computation with one
third-party contribution `foo` succeeds with exactly one `foo` entry. -/
theorem compute_conflict_policy_witness :
    ∃ ds,
      ComputeDependencies.compute
          { cargo_generator :=
              { third_party_crates := [("foo", .Simple "1")]
                targets_to_projects := [] }
            optional_deps := []
            deps := { third_party := ["foo"], fbcode := [] }
            named_deps := NamedDeps.default
            extra_buck_dependencies := []
            dependencies_override := []
            resolveFbcode := fun _ _ _ => .ok none } = .ok ds ∧
        countKeyA ds "foo" = 1 := by
  obtain ⟨ds, hds, hcount⟩ :=
    (compute_conflict_policy
        { cargo_generator :=
            { third_party_crates := [("foo", .Simple "1")]
              targets_to_projects := [] }
          optional_deps := []
          deps := { third_party := ["foo"], fbcode := [] }
          named_deps := NamedDeps.default
          extra_buck_dependencies := []
          dependencies_override := []
          resolveFbcode := fun _ _ _ => .ok none }
        [("foo", .Simple "1")] rfl).2
      (by
        intro k v₁ v₂ h₁ h₂
        simp only [List.mem_singleton] at h₁ h₂
        rw [Prod.mk.injEq] at h₁ h₂
        rw [h₁.2, h₂.2])
  exact ⟨ds, hds, hcount "foo" (.Simple "1") (by simp)⟩

/-! ## Claim C3 - dev-dependency suppression -/

/-- Claim C3: in `gen_dev_dependencies`, an entry whose key and resolved
value appear identically in the regular set and the computed dev set is
removed from the emitted dev set (it remains only in the regular set), while
a key present in both sets with different values stays in both. -/
theorem gen_dev_suppression (regular_dependencies : DepsSet)
    (s : ComputeDependencies) (dev out : DepsSet)
    (hov : KeysNodup s.dependencies_override)
    (hdev : ComputeDependencies.compute s = .ok dev)
    (hout : gen_dev_dependencies regular_dependencies s = .ok out) :
    (∀ k v, lookupA regular_dependencies k = some v →
      lookupA dev k = some v → lookupA out k = none) ∧
    (∀ k v v', lookupA regular_dependencies k = some v →
      lookupA dev k = some v' → v ≠ v' →
      lookupA out k = some v' ∧
        lookupA regular_dependencies k = some v) := by
  have hnd : KeysNodup dev := by
    unfold ComputeDependencies.compute at hdev
    cases hb : buildDepsSet s with
    | error e => rw [hb] at hdev; cases hdev
    | ok ds₀ =>
        rw [hb] at hdev
        have happ : applyOverridesStage s ds₀ = dev := by
          simpa [Except.map] using hdev
        rw [← happ]
        exact keysNodup_applyStage s ds₀ (keysNodup_buildDepsSet s ds₀ hb) hov
  have hout' : out = deps_difference regular_dependencies dev := by
    unfold gen_dev_dependencies at hout
    rw [hdev] at hout
    have := hout.symm
    simpa [Except.map] using this
  subst hout'
  constructor
  · intro k v hreg hdev'
    unfold deps_difference
    rw [lookupA_filter dev _ k hnd, hdev']
    simp [hreg]
  · intro k v v' hreg hdev' hne
    refine ⟨?_, hreg⟩
    unfold deps_difference
    rw [lookupA_filter dev _ k hnd, hdev']
    simp only [hreg, decide_eq_true_eq]
    have : ¬ ((some v : Option Dependency) = some v') := by
      intro h
      exact hne (Option.some.injEq v v' ▸ h)
    simp [this]

/-- Witness for `gen_dev_suppression`: with a regular set
`a = "1", b = "1"` and a dev computation producing `a = "1", b = "2"`, the
emitted dev set drops `a` (identical) and keeps `b` (divergent). -/
theorem gen_dev_suppression_witness :
    lookupA
        (deps_difference [("a", .Simple "1"), ("b", .Simple "1")]
          [("a", .Simple "1"), ("b", .Simple "2")]) "a" = none ∧
      lookupA
        (deps_difference [("a", .Simple "1"), ("b", .Simple "1")]
          [("a", .Simple "1"), ("b", .Simple "2")]) "b" =
        some (.Simple "2") := by
  obtain ⟨h1, h2⟩ :=
    gen_dev_suppression [("a", .Simple "1"), ("b", .Simple "1")]
      { cargo_generator :=
          { third_party_crates := [("a", .Simple "1"), ("b", .Simple "2")]
            targets_to_projects := [] }
        optional_deps := []
        deps := { third_party := ["a", "b"], fbcode := [] }
        named_deps := NamedDeps.default
        extra_buck_dependencies := []
        dependencies_override := []
        resolveFbcode := fun _ _ _ => .ok none }
      [("a", .Simple "1"), ("b", .Simple "2")]
      (deps_difference [("a", .Simple "1"), ("b", .Simple "1")]
        [("a", .Simple "1"), ("b", .Simple "2")])
      (by simp [KeysNodup]) rfl rfl
  exact
    ⟨h1 "a" (.Simple "1") rfl rfl,
      (h2 "b" (.Simple "1") (.Simple "2") rfl rfl (by decide)).1⟩

/-! ## Claim C10 - overrides can introduce dependencies -/

/-- Claim C10: a field-level override key matching no dependency built from
rule edges or add/remove overrides still produces an output entry: the
computation creates a fresh all-default detailed dependency and applies the
override to it. -/
theorem compute_override_introduces_entry (s : ComputeDependencies)
    (ds₀ out : DepsSet) (key : String) (ov : CargoDependencyOverride)
    (hov : KeysNodup s.dependencies_override)
    (hbuild : buildDepsSet s = .ok ds₀)
    (hkey : lookupA ds₀ key = none)
    (hovk : lookupA s.dependencies_override key = some ov)
    (hout : ComputeDependencies.compute s = .ok out) :
    lookupA out key =
      some (apply_override s.cargo_generator s.optional_deps key
        (.Detailed DependencyDetail.default) ov) := by
  have happ : out = applyOverridesStage s ds₀ := by
    unfold ComputeDependencies.compute at hout
    rw [hbuild] at hout
    have := hout.symm
    simpa [Except.map] using this
  subst happ
  exact lookupA_applyStage_fresh s ds₀ key ov hov hkey hovk

/-- Witness for `compute_override_introduces_entry`: an empty build-rule
contribution set plus an override `newdep.version = "3.0"` yields a
dependency section with the entry `newdep = "3.0"`. -/
theorem compute_override_introduces_entry_witness :
    lookupA
        [("newdep",
          apply_override
            { third_party_crates := [], targets_to_projects := [] } []
            "newdep" (.Detailed DependencyDetail.default)
            { CargoDependencyOverride.default with
              version := some (some "3.0") })] "newdep" =
      some (.Simple "3.0") := by
  refine (compute_override_introduces_entry
      { cargo_generator := { third_party_crates := [], targets_to_projects := [] }
        optional_deps := []
        deps := Deps.default
        named_deps := NamedDeps.default
        extra_buck_dependencies := []
        dependencies_override :=
          [("newdep",
            { CargoDependencyOverride.default with
              version := some (some "3.0") })]
        resolveFbcode := fun _ _ _ => .ok none }
      [] _ "newdep"
      { CargoDependencyOverride.default with version := some (some "3.0") }
      (by simp [KeysNodup]) rfl rfl rfl rfl).trans ?_
  rfl

/-! ## Claim C9 - batched load atomicity -/

theorem loadOne_dichotomy (e : BuckManifestRule × Option RawBuckManifest) :
    (loadEntryOk e = true ∧
      ∃ p, loadEntryResult e = some p ∧ loadOne e = .ok p) ∨
    (loadEntryOk e = false ∧ loadEntryResult e = none ∧
      ∃ err, loadOne e = .error err) := by
  cases e with
  | mk r art =>
      cases art with
      | none =>
          right
          exact ⟨rfl, rfl, "While reading manifest file", rfl⟩
      | some parsed =>
          by_cases hsfx : strEndsWith r.rule.name RUST_MANIFEST_SFX
          · by_cases hname :
                strDropRight r.rule.name RUST_MANIFEST_SFX.length = parsed.name
            · left
              have hok : loadEntryOk (r, some parsed) = true := by
                simp [loadEntryOk, hsfx, hname]
              refine ⟨hok, ?_⟩
              refine
                ⟨({ path := r.rule.path
                    name := strDropRight r.rule.name RUST_MANIFEST_SFX.length },
                  parsed), ?_, ?_⟩
              · simp [loadEntryResult, hok]
              · simp [loadOne, FbcodeBuckRule.try_from, hsfx, hname]
            · right
              have hok : loadEntryOk (r, some parsed) = false := by
                simp [loadEntryOk, hsfx, hname]
              refine ⟨hok, by simp [loadEntryResult, hok], ?_⟩
              refine
                ⟨"Name of the rule is not the same as declared in manifest", ?_⟩
              simp [loadOne, FbcodeBuckRule.try_from, hsfx, hname]
          · right
            have hok : loadEntryOk (r, some parsed) = false := by
              simp [loadEntryOk, hsfx]
            refine ⟨hok, by simp [loadEntryResult, hok], ?_⟩
            refine ⟨"BuckManifestRule name did not end in -rust-manifest", ?_⟩
            simp [loadOne, FbcodeBuckRule.try_from, hsfx]

/-- Claim C9: a batched build-and-parse is atomic — when every artifact
parses, every manifest rule name is well-formed and every parsed manifest's
declared name matches its rule's name, the load returns the complete
rule-to-manifest map (one entry per batch entry); as soon as any entry fails
any of those checks, the whole batch load returns an error and no partial
map is returned. -/
theorem load_batch_atomicity
    (artifacts : List (BuckManifestRule × Option RawBuckManifest)) :
    (artifacts.all loadEntryOk = true →
      BuckManifestLoader.load artifacts =
          .ok (artifacts.filterMap loadEntryResult) ∧
        (artifacts.filterMap loadEntryResult).length = artifacts.length) ∧
    (artifacts.all loadEntryOk = false →
      ∃ e, BuckManifestLoader.load artifacts = .error e) := by
  induction artifacts with
  | nil => exact ⟨fun _ => ⟨rfl, rfl⟩, fun h => by simp at h⟩
  | cons e rest ih =>
      constructor
      · intro hall
        simp only [List.all_cons, Bool.and_eq_true] at hall
        rcases loadOne_dichotomy e with ⟨hok, p, hres, hone⟩ | ⟨hok, _, _⟩
        · rcases ih.1 hall.2 with ⟨hload, hlen⟩
          constructor
          · unfold BuckManifestLoader.load
            rw [hone, hload]
            simp [List.filterMap_cons, hres]
          · simp [List.filterMap_cons, hres, hlen]
        · rw [hok] at hall
          exact absurd hall.1 (by simp)
      · intro hall
        rcases loadOne_dichotomy e with ⟨hok, p, hres, hone⟩ | ⟨hok, _, err, hone⟩
        · simp only [List.all_cons, hok, Bool.true_and] at hall
          rcases ih.2 hall with ⟨err, herr⟩
          refine ⟨err, ?_⟩
          unfold BuckManifestLoader.load
          rw [hone, herr]
        · refine ⟨err, ?_⟩
          unfold BuckManifestLoader.load
          rw [hone]

/-- Witness for `load_batch_atomicity`: a well-formed batch of one entry
(rule `baz-rust-manifest`, manifest named `baz`) loads completely; a batch
containing an unreadable artifact fails as a whole. -/
theorem load_batch_atomicity_witness :
    BuckManifestLoader.load
        [({ rule := { path := "foo/bar", name := "baz-rust-manifest" } },
          some
            { name := "baz", fbconfig_rule_type := .RustLibrary,
              ignore_rule := false, thrift := false })] =
      .ok
        [({ path := "foo/bar", name := "baz" },
          { name := "baz", fbconfig_rule_type := .RustLibrary,
            ignore_rule := false, thrift := false })] ∧
    ∃ e,
      BuckManifestLoader.load
          [({ rule := { path := "foo/bar", name := "baz-rust-manifest" } },
            none)] = .error e := by
  constructor
  · refine
      ((load_batch_atomicity
        [({ rule := { path := "foo/bar", name := "baz-rust-manifest" } },
          some
            { name := "baz", fbconfig_rule_type := .RustLibrary,
              ignore_rule := false, thrift := false })]).1
        (by rfl)).1.trans ?_
    rfl
  · exact
      (load_batch_atomicity
        [({ rule := { path := "foo/bar", name := "baz-rust-manifest" } },
          none)]).2 (by rfl)

/-! ## Claim C4 - self-reference exclusion in consolidation -/

theorem try_new_some (cargo_generator : CargoGenerator)
    (targets_path : TargetsPath) (raw : RawBuckManifest)
    (rule : FbcodeRule)
    (h : FbcodeRule.try_new cargo_generator targets_path raw = some rule) :
    rule = { targets_path := targets_path, buck_name := raw.name } := by
  unfold FbcodeRule.try_new at h
  by_cases h1 : raw.ignore_rule = true ∨
      ¬ cargo_generator.targets_to_projects.contains targets_path = true
  · rw [if_pos h1] at h
    cases h
  · rw [if_neg h1] at h
    by_cases h2 : raw.fbconfig_rule_type = RawFbconfigRuleType.RustLibrary
    · rw [if_pos h2] at h
      cases h
      rfl
    · rw [if_neg h2] at h
      cases h

theorem from_deps_no_self (cargo_generator : CargoGenerator)
    (local_targets_path : TargetsPath) (local_rules : List String)
    (deps : List BuckDependency) :
    ∀ e ∈ (Deps.from_deps cargo_generator local_targets_path local_rules
        deps).fbcode,
      ¬ (e.1.targets_path = local_targets_path ∧
          local_rules.contains e.1.buck_name = true) := by
  intro e he
  unfold Deps.from_deps at he
  simp only at he
  rcases List.mem_filterMap.mp he with ⟨d, _, hd⟩
  cases d with
  | ThirdPartyCrate name => simp at hd
  | FbcodeCrate targets_path raw =>
      simp only at hd
      by_cases hloc : targets_path = local_targets_path ∧
          local_rules.contains raw.name = true
      · rw [if_pos hloc] at hd
        cases hd
      · rw [if_neg hloc] at hd
        cases htn : FbcodeRule.try_new cargo_generator targets_path raw with
        | none => rw [htn] at hd; cases hd
        | some rule =>
            rw [htn] at hd
            cases hd
            have := try_new_some cargo_generator targets_path raw rule htn
            subst this
            exact hloc

theorem from_named_deps_no_self (cargo_generator : CargoGenerator)
    (local_targets_path : TargetsPath) (local_rules : List String)
    (named_deps : List (String × BuckDependency)) :
    ∀ e ∈ (NamedDeps.from_named_deps cargo_generator local_targets_path
        local_rules named_deps).fbcode,
      ¬ (e.1.2.targets_path = local_targets_path ∧
          local_rules.contains e.1.2.buck_name = true) := by
  intro e he
  unfold NamedDeps.from_named_deps at he
  simp only at he
  rcases List.mem_filterMap.mp he with ⟨d, _, hd⟩
  cases hd2 : d.2 with
  | ThirdPartyCrate name => rw [hd2] at hd; simp at hd
  | FbcodeCrate targets_path raw =>
      rw [hd2] at hd
      simp only at hd
      by_cases hloc : targets_path = local_targets_path ∧
          local_rules.contains raw.name = true
      · rw [if_pos hloc] at hd
        cases hd
      · rw [if_neg hloc] at hd
        cases htn : FbcodeRule.try_new cargo_generator targets_path raw with
        | none => rw [htn] at hd; cases hd
        | some rule =>
            rw [htn] at hd
            cases hd
            have := try_new_some cargo_generator targets_path raw rule htn
            subst this
            exact hloc

theorem mem_insertFbcode (l : List (FbcodeRule × RawBuckManifest))
    (k : FbcodeRule) (v : RawBuckManifest) :
    ∀ e ∈ insertFbcode l k v, e ∈ l ∨ e = (k, v) := by
  induction l with
  | nil =>
      intro e he
      simp only [insertFbcode] at he
      exact Or.inr (List.mem_singleton.mp he)
  | cons f t ih =>
      intro e he
      simp only [insertFbcode] at he
      by_cases hk : f.1 = k
      · rw [if_pos hk] at he
        rcases List.mem_cons.mp he with he | he
        · exact Or.inr he
        · exact Or.inl (List.mem_cons_of_mem _ he)
      · rw [if_neg hk] at he
        rcases List.mem_cons.mp he with he | he
        · exact Or.inl (he ▸ List.mem_cons_self _ _)
        · rcases ih e he with he' | he'
          · exact Or.inl (List.mem_cons_of_mem _ he')
          · exact Or.inr he'

/-- Claim C4, counterexample: the thrift codegen pseudo-dependency is
inserted into the consolidated `deps` after the self-reference filter, so a
unit whose own rule is the codegen-includer rule (its targets path is the
codegen-includer path and it declares thrift support) ends up with a
dependency edge whose targets path equals the unit's path and whose rule
name is among the unit's own rule names — the claimed invariant fails. -/
theorem consolidated_self_edge_counterexample :
    (ConsolidatedDependencies.new
          { third_party_crates := [], targets_to_projects := [] }
          "common/rust/shed/codegen_includer_proc_macro"
          (some
            { raw :=
                { name := "codegen_includer_proc_macro"
                  fbconfig_rule_type := .RustLibrary
                  ignore_rule := false
                  thrift := true }
              deps := []
              named_deps := []
              os_deps := []
              tests := []
              test_deps := []
              test_named_deps := []
              test_os_deps := []
              thrift_config :=
                some
                  { cratemap_content := ""
                    thrift_compiler :=
                      { name := "lib", fbconfig_rule_type := .RustLibrary,
                        ignore_rule := false, thrift := false }
                    codegen_includer_proc_macro_manifest :=
                      { name := "codegen_includer_proc_macro"
                        fbconfig_rule_type := .RustLibrary
                        ignore_rule := false
                        thrift := false } } })
          [] []).deps.fbcode.any
        (fun e =>
          e.1.targets_path ==
              "common/rust/shed/codegen_includer_proc_macro" &&
            ["codegen_includer_proc_macro"].contains e.1.buck_name) =
      true := by
  decide

/-- Claim C4 (amended): every fbcode dependency contributed through the
rules' own dependency lists whose targets path equals the unit's path and
whose rule name is among the unit's rule names is dropped from all six
consolidated sets; the only possible exception is the thrift codegen
pseudo-dependency, which is inserted into `deps` after the filter under the
fixed codegen-includer key. -/
theorem consolidated_no_self_edges (cargo_generator : CargoGenerator)
    (targets_path : TargetsPath) (lib : Option BuckManifest)
    (bins : List BuckManifest) (tests : List BuckManifest) :
    (∀ e ∈ (ConsolidatedDependencies.new cargo_generator targets_path lib
          bins tests).deps.fbcode,
        e.1.targets_path = targets_path ∧
            (((lib.toList ++ bins ++ tests).map
              (fun m => m.raw.name)).contains e.1.buck_name) = true →
          e.1 = FbcodeRule.unsafe_from_buck_rule
            CODEGEN_INCLUDER_PROC_MACRO_RULE.path
            CODEGEN_INCLUDER_PROC_MACRO_RULE.name) ∧
    (∀ e ∈ (ConsolidatedDependencies.new cargo_generator targets_path lib
          bins tests).named_deps.fbcode,
        ¬ (e.1.2.targets_path = targets_path ∧
            (((lib.toList ++ bins ++ tests).map
              (fun m => m.raw.name)).contains e.1.2.buck_name) = true)) ∧
    (∀ os d, (os, d) ∈ (ConsolidatedDependencies.new cargo_generator
          targets_path lib bins tests).os_deps →
        ∀ e ∈ d.fbcode,
          ¬ (e.1.targets_path = targets_path ∧
              (((lib.toList ++ bins ++ tests).map
                (fun m => m.raw.name)).contains e.1.buck_name) = true)) ∧
    (∀ e ∈ (ConsolidatedDependencies.new cargo_generator targets_path lib
          bins tests).test_deps.fbcode,
        ¬ (e.1.targets_path = targets_path ∧
            (((lib.toList ++ bins ++ tests).map
              (fun m => m.raw.name)).contains e.1.buck_name) = true)) ∧
    (∀ e ∈ (ConsolidatedDependencies.new cargo_generator targets_path lib
          bins tests).test_named_deps.fbcode,
        ¬ (e.1.2.targets_path = targets_path ∧
            (((lib.toList ++ bins ++ tests).map
              (fun m => m.raw.name)).contains e.1.2.buck_name) = true)) ∧
    (∀ os d, (os, d) ∈ (ConsolidatedDependencies.new cargo_generator
          targets_path lib bins tests).test_os_deps →
        ∀ e ∈ d.fbcode,
          ¬ (e.1.targets_path = targets_path ∧
              (((lib.toList ++ bins ++ tests).map
                (fun m => m.raw.name)).contains e.1.buck_name) = true)) := by
  refine ⟨?_, ?_, ?_, ?_, ?_, ?_⟩
  · intro e he hself
    unfold ConsolidatedDependencies.new at he
    simp only at he
    cases htc :
        (lib.bind (fun l => l.thrift_config) : Option ThriftConfig) with
    | none =>
        rw [htc] at he
        simp only at he
        exact absurd hself (from_deps_no_self _ _ _ _ e he)
    | some tc =>
        rw [htc] at he
        simp only at he
        rcases mem_insertFbcode _ _ _ e he with he' | he'
        · exact absurd hself (from_deps_no_self _ _ _ _ e he')
        · rw [he']
  · intro e he
    unfold ConsolidatedDependencies.new at he
    simp only at he
    exact from_named_deps_no_self _ _ _ _ e he
  · intro os d hd e he
    unfold ConsolidatedDependencies.new at hd
    simp only at hd
    rcases List.mem_map.mp hd with ⟨os', _, hd'⟩
    rw [Prod.mk.injEq] at hd'
    rw [← hd'.2] at he
    exact from_deps_no_self _ _ _ _ e he
  · intro e he
    unfold ConsolidatedDependencies.new at he
    simp only at he
    exact from_deps_no_self _ _ _ _ e he
  · intro e he
    unfold ConsolidatedDependencies.new at he
    simp only at he
    exact from_named_deps_no_self _ _ _ _ e he
  · intro os d hd e he
    unfold ConsolidatedDependencies.new at hd
    simp only at hd
    rcases List.mem_map.mp hd with ⟨os', _, hd'⟩
    rw [Prod.mk.injEq] at hd'
    rw [← hd'.2] at he
    exact from_deps_no_self _ _ _ _ e he

/-- Witness for `consolidated_no_self_edges`: (a) in the contrived
codegen-includer unit the only same-unit edge surviving in `deps` is the
injected codegen-includer key itself; (b) in an ordinary unit `my/crate`
with library `mylib` and a test dependency on `other/crate:otherlib`, the
consolidated test edge is no self-reference. -/
theorem consolidated_no_self_edges_witness :
    ({ targets_path := "common/rust/shed/codegen_includer_proc_macro"
       buck_name := "codegen_includer_proc_macro" } : FbcodeRule) =
        FbcodeRule.unsafe_from_buck_rule
          CODEGEN_INCLUDER_PROC_MACRO_RULE.path
          CODEGEN_INCLUDER_PROC_MACRO_RULE.name ∧
      ¬ (("other/crate" : TargetsPath) = "my/crate" ∧
          (["mylib"].contains "otherlib") = true) := by
  constructor
  · exact
      (consolidated_no_self_edges
          { third_party_crates := [], targets_to_projects := [] }
          "common/rust/shed/codegen_includer_proc_macro"
          (some
            { raw :=
                { name := "codegen_includer_proc_macro"
                  fbconfig_rule_type := .RustLibrary
                  ignore_rule := false
                  thrift := true }
              deps := []
              named_deps := []
              os_deps := []
              tests := []
              test_deps := []
              test_named_deps := []
              test_os_deps := []
              thrift_config :=
                some
                  { cratemap_content := ""
                    thrift_compiler :=
                      { name := "lib", fbconfig_rule_type := .RustLibrary,
                        ignore_rule := false, thrift := false }
                    codegen_includer_proc_macro_manifest :=
                      { name := "codegen_includer_proc_macro"
                        fbconfig_rule_type := .RustLibrary
                        ignore_rule := false
                        thrift := false } } })
          [] []).1
        ({ targets_path := "common/rust/shed/codegen_includer_proc_macro"
           buck_name := "codegen_includer_proc_macro" },
          { name := "codegen_includer_proc_macro"
            fbconfig_rule_type := .RustLibrary
            ignore_rule := false
            thrift := false })
        (by decide) ⟨rfl, by decide⟩
  · exact
      (consolidated_no_self_edges
          { third_party_crates := [], targets_to_projects := ["other/crate"] }
          "my/crate"
          (some
            { raw :=
                { name := "mylib", fbconfig_rule_type := .RustLibrary,
                  ignore_rule := false, thrift := false }
              deps := []
              named_deps := []
              os_deps := []
              tests := []
              test_deps :=
                [.FbcodeCrate "other/crate"
                  { name := "otherlib", fbconfig_rule_type := .RustLibrary,
                    ignore_rule := false, thrift := false }]
              test_named_deps := []
              test_os_deps := []
              thrift_config := none })
          [] []).2.2.2.1
        ({ targets_path := "other/crate", buck_name := "otherlib" },
          { name := "otherlib", fbconfig_rule_type := .RustLibrary,
            ignore_rule := false, thrift := false })
        (by decide)

/-! ## Claim C1 - one-hop manifest resolution -/

theorem filterMap_congr_mem {α β : Type} (l : List α) (f g : α → Option β)
    (h : ∀ a ∈ l, f a = g a) : l.filterMap f = l.filterMap g := by
  induction l with
  | nil => rfl
  | cons a t ih =>
      simp only [List.filterMap_cons, h a (List.mem_cons_self _ _),
        ih fun a ha => h a (List.mem_cons_of_mem _ ha)]

/-- Claim C1, counterexample: the resolver's referenced-rule set also
includes fbcode rules mentioned only in the `extra_buck_dependencies`
override lists.  A requested rule `a:r0` with empty dependency categories, no
thrift, and an extra-dependency override adding `b:r1` yields the missing
set `[b:r1]`, whereas the claimed set difference (seven dependency
categories plus the thrift pair, minus the requested rules) is empty. -/
theorem compute_all_raw_manifests_claim_counterexample :
    missingRules
        [({ path := "a", name := "r0" },
          { raw :=
              { name := "r0", fbconfig_rule_type := .RustLibrary,
                ignore_rule := false, thrift := false }
            deps := []
            named_deps := []
            os_deps := []
            tests := []
            test_deps := []
            test_named_deps := []
            test_os_deps := []
            extra_buck_dependencies :=
              { deps :=
                  { dependencies :=
                      [.Dep (.FbcodeCrate { path := "b", name := "r1" })]
                    dev_dependencies := []
                    build_dependencies := [] }
                target := [] } })] =
        [{ path := "b", name := "r1" }] ∧
      (referencedPerClaim
          [{ raw :=
              { name := "r0", fbconfig_rule_type := .RustLibrary,
                ignore_rule := false, thrift := false }
             deps := []
             named_deps := []
             os_deps := []
             tests := []
             test_deps := []
             test_named_deps := []
             test_os_deps := []
             extra_buck_dependencies :=
               { deps :=
                   { dependencies :=
                       [.Dep (.FbcodeCrate { path := "b", name := "r1" })]
                     dev_dependencies := []
                     build_dependencies := [] }
                 target := [] } }]).filter
          (fun r => ¬ [({ path := "a", name := "r0" } : FbcodeBuckRule)].contains r) =
        [] := by
  constructor
  · rfl
  · rfl

/-- Claim C1 (amended): the resolver computes the referenced-but-unloaded
rules as the set difference between the rules referenced across the seven
dependency categories, the two thrift pseudo-dependency rules, *and the
fbcode rules of the extra-buck-dependencies override lists*, minus the
requested rules; it loads them through exactly one additional pass and never
recurses.  Concretely: (a) a rule appears in the output exactly when it was
requested or is a missing rule the single pass resolves; (b) the missing
set is exactly the referenced set minus the requested set; (c) the result
depends on the loading oracle only at the missing rules, so dependencies
mentioned only inside newly loaded manifests are never discovered or
loaded. -/
theorem compute_all_raw_manifests_one_pass
    (manifest_builders : List (FbcodeBuckRule × BuckManifestBuilder)) :
    (∀ (oracle : FbcodeBuckRule → Option RawBuckManifest) (r : FbcodeBuckRule),
      (∃ v, (r, v) ∈ compute_all_raw_manifests manifest_builders oracle) ↔
        (r ∈ manifest_builders.map Prod.fst ∨
          (r ∈ missingRules manifest_builders ∧ (oracle r).isSome = true))) ∧
    (∀ r : FbcodeBuckRule,
      r ∈ missingRules manifest_builders ↔
        (r ∈ extract_dependencies (manifest_builders.map Prod.snd) ∧
          r ∉ manifest_builders.map Prod.fst)) ∧
    (∀ oracle₁ oracle₂ : FbcodeBuckRule → Option RawBuckManifest,
      (∀ r ∈ missingRules manifest_builders, oracle₁ r = oracle₂ r) →
      compute_all_raw_manifests manifest_builders oracle₁ =
        compute_all_raw_manifests manifest_builders oracle₂) := by
  refine ⟨?_, ?_, ?_⟩
  · intro oracle r
    constructor
    · rintro ⟨v, hv⟩
      unfold compute_all_raw_manifests at hv
      rcases List.mem_append.mp hv with hv | hv
      · rcases List.mem_map.mp hv with ⟨e, he, hev⟩
        rw [Prod.mk.injEq] at hev
        exact Or.inl (hev.1 ▸ List.mem_map_of_mem Prod.fst he)
      · rcases List.mem_filterMap.mp hv with ⟨r', hr', hrv⟩
        cases ho : oracle r' with
        | none => rw [ho] at hrv; cases hrv
        | some m =>
            rw [ho] at hrv
            simp only [Option.map_some', Option.some.injEq,
              Prod.mk.injEq] at hrv
            right
            refine ⟨hrv.1 ▸ hr', ?_⟩
            rw [← hrv.1, ho]
            rfl
    · rintro (hr | ⟨hmiss, hsome⟩)
      · rcases List.mem_map.mp hr with ⟨e, he, her⟩
        refine ⟨(e.1.path, e.2.raw), ?_⟩
        unfold compute_all_raw_manifests
        refine List.mem_append.mpr (Or.inl ?_)
        refine List.mem_map.mpr ⟨e, he, ?_⟩
        rw [her]
      · cases ho : oracle r with
        | none => rw [ho] at hsome; cases hsome
        | some m =>
            refine ⟨(r.path, m), ?_⟩
            unfold compute_all_raw_manifests
            refine List.mem_append.mpr (Or.inr ?_)
            refine List.mem_filterMap.mpr ⟨r, hmiss, ?_⟩
            rw [ho]
            rfl
  · intro r
    unfold missingRules
    constructor
    · intro hr
      have hmem := List.mem_filter.mp hr
      refine ⟨List.mem_dedup.mp hmem.1, ?_⟩
      have := hmem.2
      simp only [decide_eq_true_eq] at this
      intro hcontra
      exact this (List.mem_map.mp hcontra |>.elim
        fun e he => (List.elem_iff.mpr (he.2 ▸ List.mem_map_of_mem Prod.fst he.1)))
    · rintro ⟨hdep, hload⟩
      refine List.mem_filter.mpr ⟨List.mem_dedup.mpr hdep, ?_⟩
      simp only [decide_eq_true_eq]
      intro hcontra
      exact hload (List.elem_iff.mp hcontra)
  · intro oracle₁ oracle₂ hagree
    unfold compute_all_raw_manifests
    have :
        (missingRules manifest_builders).filterMap
            (fun r => (oracle₁ r).map (fun m => (r, (r.path, m)))) =
          (missingRules manifest_builders).filterMap
            (fun r => (oracle₂ r).map (fun m => (r, (r.path, m)))) := by
      refine filterMap_congr_mem _ _ _ ?_
      intro r hr
      rw [hagree r hr]
    rw [this]

/-- Witness for `compute_all_raw_manifests_one_pass`: with a single
requested rule `a:r0` whose extra-buck-dependencies reference `b:r1`, two
oracles that agree on `b:r1` but disagree on the two-hop rule `c:r2` produce
the same resolved map, and `b:r1` is in that map. -/
theorem compute_all_raw_manifests_one_pass_witness :
    compute_all_raw_manifests
        [({ path := "a", name := "r0" },
          { raw :=
              { name := "r0", fbconfig_rule_type := .RustLibrary,
                ignore_rule := false, thrift := false }
            deps := []
            named_deps := []
            os_deps := []
            tests := []
            test_deps := []
            test_named_deps := []
            test_os_deps := []
            extra_buck_dependencies :=
              { deps :=
                  { dependencies :=
                      [.Dep (.FbcodeCrate { path := "b", name := "r1" })]
                    dev_dependencies := []
                    build_dependencies := [] }
                target := [] } })]
        (fun r =>
          if r = { path := "b", name := "r1" } then
            some
              { name := "r1", fbconfig_rule_type := .RustLibrary,
                ignore_rule := false, thrift := false }
          else none) =
      compute_all_raw_manifests
        [({ path := "a", name := "r0" },
          { raw :=
              { name := "r0", fbconfig_rule_type := .RustLibrary,
                ignore_rule := false, thrift := false }
            deps := []
            named_deps := []
            os_deps := []
            tests := []
            test_deps := []
            test_named_deps := []
            test_os_deps := []
            extra_buck_dependencies :=
              { deps :=
                  { dependencies :=
                      [.Dep (.FbcodeCrate { path := "b", name := "r1" })]
                    dev_dependencies := []
                    build_dependencies := [] }
                target := [] } })]
        (fun r =>
          if r = { path := "b", name := "r1" } then
            some
              { name := "r1", fbconfig_rule_type := .RustLibrary,
                ignore_rule := false, thrift := false }
          else if r = { path := "c", name := "r2" } then
            some
              { name := "r2", fbconfig_rule_type := .RustLibrary,
                ignore_rule := false, thrift := false }
          else none) := by
  exact
    (compute_all_raw_manifests_one_pass
        [({ path := "a", name := "r0" },
          { raw :=
              { name := "r0", fbconfig_rule_type := .RustLibrary,
                ignore_rule := false, thrift := false }
            deps := []
            named_deps := []
            os_deps := []
            tests := []
            test_deps := []
            test_named_deps := []
            test_os_deps := []
            extra_buck_dependencies :=
              { deps :=
                  { dependencies :=
                      [.Dep (.FbcodeCrate { path := "b", name := "r1" })]
                    dev_dependencies := []
                    build_dependencies := [] }
                target := [] } })]).2.2
      _ _ (by decide)

/-! ## Claim C5 - bidirectional project selection closure -/

theorem reverseLoop_nil (projects : List ProjectConf) (fuel : Nat)
    (selected : List String) :
    reverseLoop projects fuel selected [] = selected := by
  cases fuel with
  | zero => rfl
  | succ fuel => rfl

theorem reverseLoop_cons (projects : List ProjectConf) (fuel : Nat)
    (selected : List String) (x : String) (t : List String) :
    reverseLoop projects (fuel + 1) selected (x :: t) =
      reverseLoop projects fuel
        (selected ++ reverseNext projects selected (x :: t))
        (reverseNext projects selected (x :: t)) := rfl

theorem forwardLoop_nil (projects : List ProjectConf) (fuel : Nat)
    (selected : List String) :
    forwardLoop projects fuel selected [] = selected := by
  cases fuel with
  | zero => rfl
  | succ fuel => rfl

theorem forwardLoop_cons (projects : List ProjectConf) (fuel : Nat)
    (selected : List String) (x : String) (t : List String) :
    forwardLoop projects (fuel + 1) selected (x :: t) =
      forwardLoop projects fuel
        (selected ++ forwardNext projects selected (x :: t))
        (forwardNext projects selected (x :: t)) := rfl

theorem mem_reverseStep (projects : List ProjectConf)
    (frontier : List String) (n : String) :
    n ∈ reverseStep projects frontier ↔
      ∃ c ∈ projects, c.name = n ∧ ∃ q ∈ frontier, q ∈ c.dependencies := by
  unfold reverseStep
  rw [List.mem_dedup, List.mem_map]
  constructor
  · rintro ⟨c, hc, hcn⟩
    have hmem := List.mem_filter.mp hc
    rcases List.any_eq_true.mp hmem.2 with ⟨q, hq, hqc⟩
    exact ⟨c, hmem.1, hcn, q, hq, List.elem_iff.mp hqc⟩
  · rintro ⟨c, hc, hcn, q, hq, hqc⟩
    refine ⟨c, List.mem_filter.mpr ⟨hc, ?_⟩, hcn⟩
    refine List.any_eq_true.mpr ⟨q, hq, ?_⟩
    simpa using List.elem_iff.mpr hqc

theorem mem_forwardStep (projects : List ProjectConf)
    (frontier : List String) (n : String) :
    n ∈ forwardStep projects frontier ↔
      ∃ q ∈ frontier, n ∈ dependenciesOf projects q := by
  unfold forwardStep
  rw [List.mem_dedup, List.mem_flatMap]

theorem mem_dependenciesOf (projects : List ProjectConf) (q n : String)
    (h : n ∈ dependenciesOf projects q) :
    ∃ c ∈ projects, c.name = q ∧ n ∈ c.dependencies := by
  unfold dependenciesOf at h
  cases hf : projects.find? (fun c => c.name = q) with
  | none => rw [hf] at h; simp at h
  | some c =>
      rw [hf] at h
      refine ⟨c, List.mem_of_find?_eq_some hf, ?_, h⟩
      have := List.find?_some hf
      simpa using this

theorem dependenciesOf_eq (projects : List ProjectConf)
    (hnd : (projects.map ProjectConf.name).Nodup) (c : ProjectConf)
    (hc : c ∈ projects) :
    dependenciesOf projects c.name = c.dependencies := by
  unfold dependenciesOf
  induction projects with
  | nil => simp at hc
  | cons h t ih =>
      simp only [List.map_cons, List.nodup_cons] at hnd
      rcases List.mem_cons.mp hc with hc | hc
      · subst hc
        rw [List.find?_cons_of_pos _ (by simp)]
      · have hne : ¬ (h.name = c.name) := by
          intro heq
          exact hnd.1 (heq ▸ List.mem_map_of_mem ProjectConf.name hc)
        rw [List.find?_cons_of_neg _ (by simpa using hne)]
        exact ih hnd.2 hc

theorem reverseLoop_sound (projects : List ProjectConf)
    (paths : List PathInFbcode) :
    ∀ (fuel : Nat) (selected frontier : List String),
      (∀ n ∈ selected, ReverseClosure projects paths n) →
      (∀ n ∈ frontier, ReverseClosure projects paths n) →
      ∀ n ∈ reverseLoop projects fuel selected frontier,
        ReverseClosure projects paths n := by
  intro fuel
  induction fuel with
  | zero =>
      intro selected frontier hsel _ n hn
      exact hsel n hn
  | succ fuel ih =>
      intro selected frontier hsel hfr n hn
      cases frontier with
      | nil =>
          rw [reverseLoop_nil] at hn
          exact hsel n hn
      | cons x t =>
          rw [reverseLoop_cons] at hn
          have hnext : ∀ m ∈ reverseNext projects selected (x :: t),
              ReverseClosure projects paths m := by
            unfold reverseNext
            intro m hm
            have hm' := List.mem_of_mem_filter hm
            rcases (mem_reverseStep projects (x :: t) m).mp hm' with
              ⟨c, hc, hcn, q, hq, hqc⟩
            exact hcn ▸ ReverseClosure.step c hc q (hfr q hq) hqc
          refine ih _ _ ?_ hnext n hn
          intro m hm
          rcases List.mem_append.mp hm with hm | hm
          · exact hsel m hm
          · exact hnext m hm

theorem forwardLoop_sound (projects : List ProjectConf)
    (names : List String) :
    ∀ (fuel : Nat) (selected frontier : List String),
      (∀ n ∈ selected, ForwardClosure projects names n) →
      (∀ n ∈ frontier, ForwardClosure projects names n) →
      ∀ n ∈ forwardLoop projects fuel selected frontier,
        ForwardClosure projects names n := by
  intro fuel
  induction fuel with
  | zero =>
      intro selected frontier hsel _ n hn
      exact hsel n hn
  | succ fuel ih =>
      intro selected frontier hsel hfr n hn
      cases frontier with
      | nil =>
          rw [forwardLoop_nil] at hn
          exact hsel n hn
      | cons x t =>
          rw [forwardLoop_cons] at hn
          have hnext : ∀ m ∈ forwardNext projects selected (x :: t),
              ForwardClosure projects names m := by
            unfold forwardNext
            intro m hm
            have hm' := List.mem_of_mem_filter hm
            rcases (mem_forwardStep projects (x :: t) m).mp hm' with
              ⟨q, hq, hqm⟩
            rcases mem_dependenciesOf projects q m hqm with ⟨c, hc, hcn, hmc⟩
            exact ForwardClosure.step c hc (hcn ▸ hfr q hq) m hmc
          refine ih _ _ ?_ hnext n hn
          intro m hm
          rcases List.mem_append.mp hm with hm | hm
          · exact hsel m hm
          · exact hnext m hm

theorem mem_reverseNext (projects : List ProjectConf)
    (selected frontier : List String) (n : String) :
    n ∈ reverseNext projects selected frontier ↔
      n ∈ reverseStep projects frontier ∧ n ∉ selected := by
  unfold reverseNext
  rw [List.mem_filter]
  constructor
  · rintro ⟨h1, h2⟩
    simp only [decide_eq_true_eq] at h2
    exact ⟨h1, fun hc => h2 (List.elem_iff.mpr hc)⟩
  · rintro ⟨h1, h2⟩
    refine ⟨h1, ?_⟩
    simp only [decide_eq_true_eq]
    intro hc
    exact h2 (List.elem_iff.mp hc)

theorem mem_forwardNext (projects : List ProjectConf)
    (selected frontier : List String) (n : String) :
    n ∈ forwardNext projects selected frontier ↔
      n ∈ forwardStep projects frontier ∧ n ∉ selected := by
  unfold forwardNext
  rw [List.mem_filter]
  constructor
  · rintro ⟨h1, h2⟩
    simp only [decide_eq_true_eq] at h2
    exact ⟨h1, fun hc => h2 (List.elem_iff.mpr hc)⟩
  · rintro ⟨h1, h2⟩
    refine ⟨h1, ?_⟩
    simp only [decide_eq_true_eq]
    intro hc
    exact h2 (List.elem_iff.mp hc)

theorem reverseNext_nodup (projects : List ProjectConf)
    (selected frontier : List String) :
    (reverseNext projects selected frontier).Nodup :=
  (List.nodup_dedup _).filter _

theorem forwardNext_nodup (projects : List ProjectConf)
    (selected frontier : List String) :
    (forwardNext projects selected frontier).Nodup :=
  (List.nodup_dedup _).filter _

theorem reverseLoop_fix (projects : List ProjectConf) :
    ∀ (fuel : Nat) (selected frontier : List String),
      projects.length + 1 ≤ fuel + selected.length →
      selected.Nodup →
      (∀ n ∈ selected, n ∈ projects.map ProjectConf.name) →
      (∀ c ∈ projects,
        (∃ q, q ∈ selected ∧ q ∈ c.dependencies ∧ q ∉ frontier) →
        c.name ∈ selected) →
      (∀ n ∈ selected, n ∈ reverseLoop projects fuel selected frontier) ∧
      (∀ c ∈ projects,
        (∃ q, q ∈ reverseLoop projects fuel selected frontier ∧
          q ∈ c.dependencies) →
        c.name ∈ reverseLoop projects fuel selected frontier) := by
  intro fuel
  induction fuel with
  | zero =>
      intro selected frontier harith hnodup hsub _
      exfalso
      have hle : selected.length ≤ (projects.map ProjectConf.name).length :=
        (List.subperm_of_subset hnodup fun a ha => hsub a ha).length_le
      rw [List.length_map] at hle
      omega
  | succ fuel ih =>
      intro selected frontier harith hnodup hsub hinv
      cases frontier with
      | nil =>
          rw [reverseLoop_nil]
          refine ⟨fun n hn => hn, ?_⟩
          rintro c hc ⟨q, hq, hqc⟩
          exact hinv c hc ⟨q, hq, hqc, by simp⟩
      | cons x t =>
          rw [reverseLoop_cons]
          have hdisj : ∀ n ∈ reverseNext projects selected (x :: t),
              n ∉ selected := fun n hn =>
            ((mem_reverseNext projects selected (x :: t) n).mp hn).2
          have hnodup' :
              (selected ++ reverseNext projects selected (x :: t)).Nodup := by
            rw [List.nodup_append]
            exact ⟨hnodup, reverseNext_nodup projects selected (x :: t),
              fun a ha hb => hdisj a hb ha⟩
          have hsub' : ∀ n ∈ selected ++ reverseNext projects selected (x :: t),
              n ∈ projects.map ProjectConf.name := by
            intro n hn
            rcases List.mem_append.mp hn with hn | hn
            · exact hsub n hn
            · have := ((mem_reverseNext projects selected (x :: t) n).mp hn).1
              rcases (mem_reverseStep projects (x :: t) n).mp this with
                ⟨c, hc, hcn, _⟩
              exact hcn ▸ List.mem_map_of_mem ProjectConf.name hc
          have hinv' : ∀ c ∈ projects,
              (∃ q, q ∈ selected ++ reverseNext projects selected (x :: t) ∧
                q ∈ c.dependencies ∧
                q ∉ reverseNext projects selected (x :: t)) →
              c.name ∈ selected ++ reverseNext projects selected (x :: t) := by
            rintro c hc ⟨q, hq, hqc, hqn⟩
            have hqsel : q ∈ selected := by
              rcases List.mem_append.mp hq with hq | hq
              · exact hq
              · exact absurd hq hqn
            by_cases hqf : q ∈ x :: t
            · have hstep : c.name ∈ reverseStep projects (x :: t) :=
                (mem_reverseStep projects (x :: t) c.name).mpr
                  ⟨c, hc, rfl, q, hqf, hqc⟩
              by_cases hS : c.name ∈ selected
              · exact List.mem_append.mpr (Or.inl hS)
              · exact List.mem_append.mpr (Or.inr
                  ((mem_reverseNext projects selected (x :: t) c.name).mpr
                    ⟨hstep, hS⟩))
            · exact List.mem_append.mpr
                (Or.inl (hinv c hc ⟨q, hqsel, hqc, hqf⟩))
          by_cases hF : reverseNext projects selected (x :: t) = []
          · rw [hF, reverseLoop_nil, List.append_nil]
            refine ⟨fun n hn => hn, ?_⟩
            rintro c hc ⟨q, hq, hqc⟩
            have := hinv' c hc
              ⟨q, by rw [hF, List.append_nil]; exact hq, hqc, by rw [hF]; simp⟩
            rw [hF, List.append_nil] at this
            exact this
          · have harith' : projects.length + 1 ≤
                fuel + (selected ++ reverseNext projects selected (x :: t)).length := by
              rw [List.length_append]
              have : 0 < (reverseNext projects selected (x :: t)).length :=
                List.length_pos.mpr hF
              omega
            rcases ih (selected ++ reverseNext projects selected (x :: t))
                (reverseNext projects selected (x :: t)) harith' hnodup' hsub'
                hinv' with ⟨hgrow, hclosed⟩
            exact ⟨fun n hn =>
              hgrow n (List.mem_append.mpr (Or.inl hn)), hclosed⟩

theorem forwardLoop_fix (projects : List ProjectConf) :
    ∀ (fuel : Nat) (selected frontier : List String),
      projects.length + 1 ≤ fuel + selected.length →
      selected.Nodup →
      (∀ n ∈ selected, n ∈ projects.map ProjectConf.name) →
      (∀ p, p ∈ selected → p ∉ frontier →
        ∀ d ∈ dependenciesOf projects p, d ∈ selected) →
      (∀ c ∈ projects, ∀ dep ∈ c.dependencies,
        dep ∈ projects.map ProjectConf.name) →
      (∀ n ∈ selected, n ∈ forwardLoop projects fuel selected frontier) ∧
      (∀ p, p ∈ forwardLoop projects fuel selected frontier →
        ∀ d ∈ dependenciesOf projects p,
          d ∈ forwardLoop projects fuel selected frontier) := by
  intro fuel
  induction fuel with
  | zero =>
      intro selected frontier harith hnodup hsub _ _
      exfalso
      have hle : selected.length ≤ (projects.map ProjectConf.name).length :=
        (List.subperm_of_subset hnodup fun a ha => hsub a ha).length_le
      rw [List.length_map] at hle
      omega
  | succ fuel ih =>
      intro selected frontier harith hnodup hsub hinv hcat
      cases frontier with
      | nil =>
          rw [forwardLoop_nil]
          refine ⟨fun n hn => hn, ?_⟩
          intro p hp d hd
          exact hinv p hp (by simp) d hd
      | cons x t =>
          rw [forwardLoop_cons]
          have hdisj : ∀ n ∈ forwardNext projects selected (x :: t),
              n ∉ selected := fun n hn =>
            ((mem_forwardNext projects selected (x :: t) n).mp hn).2
          have hnodup' :
              (selected ++ forwardNext projects selected (x :: t)).Nodup := by
            rw [List.nodup_append]
            exact ⟨hnodup, forwardNext_nodup projects selected (x :: t),
              fun a ha hb => hdisj a hb ha⟩
          have hsub' : ∀ n ∈ selected ++ forwardNext projects selected (x :: t),
              n ∈ projects.map ProjectConf.name := by
            intro n hn
            rcases List.mem_append.mp hn with hn | hn
            · exact hsub n hn
            · have := ((mem_forwardNext projects selected (x :: t) n).mp hn).1
              rcases (mem_forwardStep projects (x :: t) n).mp this with
                ⟨q, _, hqn⟩
              rcases mem_dependenciesOf projects q n hqn with ⟨c, hc, _, hnc⟩
              exact hcat c hc n hnc
          have hinv' : ∀ p,
              p ∈ selected ++ forwardNext projects selected (x :: t) →
              p ∉ forwardNext projects selected (x :: t) →
              ∀ d ∈ dependenciesOf projects p,
                d ∈ selected ++ forwardNext projects selected (x :: t) := by
            intro p hp hpn d hd
            have hpsel : p ∈ selected := by
              rcases List.mem_append.mp hp with hp | hp
              · exact hp
              · exact absurd hp hpn
            by_cases hpf : p ∈ x :: t
            · have hstep : d ∈ forwardStep projects (x :: t) :=
                (mem_forwardStep projects (x :: t) d).mpr ⟨p, hpf, hd⟩
              by_cases hS : d ∈ selected
              · exact List.mem_append.mpr (Or.inl hS)
              · exact List.mem_append.mpr (Or.inr
                  ((mem_forwardNext projects selected (x :: t) d).mpr
                    ⟨hstep, hS⟩))
            · exact List.mem_append.mpr
                (Or.inl (hinv p hpsel hpf d hd))
          by_cases hF : forwardNext projects selected (x :: t) = []
          · rw [hF, forwardLoop_nil, List.append_nil]
            refine ⟨fun n hn => hn, ?_⟩
            intro p hp d hd
            have := hinv' p (by rw [hF, List.append_nil]; exact hp)
              (by rw [hF]; simp) d hd
            rw [hF, List.append_nil] at this
            exact this
          · have harith' : projects.length + 1 ≤
                fuel + (selected ++ forwardNext projects selected (x :: t)).length := by
              rw [List.length_append]
              have : 0 < (forwardNext projects selected (x :: t)).length :=
                List.length_pos.mpr hF
              omega
            rcases ih (selected ++ forwardNext projects selected (x :: t))
                (forwardNext projects selected (x :: t)) harith' hnodup' hsub'
                hinv' hcat with ⟨hgrow, hclosed⟩
            exact ⟨fun n hn =>
              hgrow n (List.mem_append.mpr (Or.inl hn)), hclosed⟩

/-- Claim C5: for a valid project catalog (unique names, every declared
dependency present — both validated at catalog load) and requested names
that all exist, the selected set equals the union of (a) the reverse
fixpoint closure of the projects covering any input path and (b) the
forward fixpoint closure of the requested names over declared dependency
edges. -/
theorem select_closure (projects : List ProjectConf)
    (paths : List PathInFbcode) (names : List String) (out : List String)
    (hnd : (projects.map ProjectConf.name).Nodup)
    (hcat : ∀ c ∈ projects, ∀ dep ∈ c.dependencies,
      dep ∈ projects.map ProjectConf.name)
    (hnames : ∀ n ∈ names, ∃ c ∈ projects, c.name = n)
    (hout : select_based_on_paths_and_names projects paths names = .ok out) :
    ∀ n, n ∈ out ↔
      (ReverseClosure projects paths n ∨ ForwardClosure projects names n) := by
  have hcond : names.all
      (fun n => projects.any (fun c => c.name = n)) = true := by
    refine List.all_eq_true.mpr ?_
    intro n hn
    rcases hnames n hn with ⟨c, hc, hcn⟩
    exact List.any_eq_true.mpr ⟨c, hc, by simp [hcn]⟩
  have hout2 :
      reverseLoop projects (projects.length + 1)
          (((projects.filter
              (fun c => paths.any (fun p => c.covers_path p))).map
            (fun c => c.name)).dedup)
          (((projects.filter
              (fun c => paths.any (fun p => c.covers_path p))).map
            (fun c => c.name)).dedup) ++
        forwardLoop projects (projects.length + 1) names.dedup names.dedup =
      out := by
    unfold select_based_on_paths_and_names at hout
    rw [if_pos hcond] at hout
    injection hout
  have hbase_nodup :
      (((projects.filter
          (fun c => paths.any (fun p => c.covers_path p))).map
        (fun c => c.name)).dedup).Nodup := List.nodup_dedup _
  have hbase_sub : ∀ n ∈ ((projects.filter
        (fun c => paths.any (fun p => c.covers_path p))).map
      (fun c => c.name)).dedup, n ∈ projects.map ProjectConf.name := by
    intro n hn
    rcases List.mem_map.mp (List.mem_dedup.mp hn) with ⟨c, hc, hcn⟩
    exact hcn ▸ List.mem_map_of_mem ProjectConf.name (List.mem_of_mem_filter hc)
  have hbase_rc : ∀ n ∈ ((projects.filter
        (fun c => paths.any (fun p => c.covers_path p))).map
      (fun c => c.name)).dedup, ReverseClosure projects paths n := by
    intro n hn
    rcases List.mem_map.mp (List.mem_dedup.mp hn) with ⟨c, hc, hcn⟩
    have hcov := (List.mem_filter.mp hc).2
    rcases List.any_eq_true.mp hcov with ⟨p, hp, hpc⟩
    exact hcn ▸ ReverseClosure.base c (List.mem_of_mem_filter hc) ⟨p, hp, hpc⟩
  rcases reverseLoop_fix projects (projects.length + 1)
      (((projects.filter
          (fun c => paths.any (fun p => c.covers_path p))).map
        (fun c => c.name)).dedup)
      (((projects.filter
          (fun c => paths.any (fun p => c.covers_path p))).map
        (fun c => c.name)).dedup)
      (by omega) hbase_nodup hbase_sub
      (by
        rintro c hc ⟨q, hq, _, hqn⟩
        exact absurd hq hqn) with ⟨hrev_grow, hrev_closed⟩
  have hrev_sound := reverseLoop_sound projects paths (projects.length + 1)
    (((projects.filter
        (fun c => paths.any (fun p => c.covers_path p))).map
      (fun c => c.name)).dedup)
    (((projects.filter
        (fun c => paths.any (fun p => c.covers_path p))).map
      (fun c => c.name)).dedup)
    hbase_rc hbase_rc
  have hnames_sub : ∀ n ∈ names.dedup, n ∈ projects.map ProjectConf.name := by
    intro n hn
    rcases hnames n (List.mem_dedup.mp hn) with ⟨c, hc, hcn⟩
    exact hcn ▸ List.mem_map_of_mem ProjectConf.name hc
  rcases forwardLoop_fix projects (projects.length + 1) names.dedup
      names.dedup (by omega) (List.nodup_dedup _) hnames_sub
      (by
        intro p hp hpn
        exact absurd hp hpn) hcat with ⟨hfwd_grow, hfwd_closed⟩
  have hfwd_sound := forwardLoop_sound projects names (projects.length + 1)
    names.dedup names.dedup
    (fun n hn => ForwardClosure.base n (List.mem_dedup.mp hn))
    (fun n hn => ForwardClosure.base n (List.mem_dedup.mp hn))
  intro n
  rw [← hout2, List.mem_append]
  constructor
  · rintro (hn | hn)
    · exact Or.inl (hrev_sound n hn)
    · exact Or.inr (hfwd_sound n hn)
  · rintro (hn | hn)
    · left
      induction hn with
      | base c hc hp =>
          refine hrev_grow c.name ?_
          refine List.mem_dedup.mpr ?_
          refine List.mem_map.mpr ⟨c, ?_, rfl⟩
          refine List.mem_filter.mpr ⟨hc, ?_⟩
          rcases hp with ⟨p, hp, hpc⟩
          exact List.any_eq_true.mpr ⟨p, hp, hpc⟩
      | step c hc q _ hd ihq =>
          exact hrev_closed c hc ⟨q, ihq, hd⟩
    · right
      induction hn with
      | base m hm =>
          exact hfwd_grow m (List.mem_dedup.mpr hm)
      | step c hc _ d hd ihc =>
          refine hfwd_closed c.name ihc d ?_
          rw [dependenciesOf_eq projects hnd c hc]
          exact hd

/-- Witness for `select_closure`: with catalog `A` (covering path `a`),
`B` (depends on `A`) and `C` (depends on `B`), selecting by the path `a`
alone selects `C` — and by the theorem `C` is in one of the two closures. -/
theorem select_closure_witness :
    ReverseClosure
        [{ name := "A", roots := [],
           include_globs := [fun p => p == ["a"]], exclude_globs := [],
           dependencies := [], oss_git_config := none },
         { name := "B", roots := [], include_globs := [],
           exclude_globs := [], dependencies := ["A"],
           oss_git_config := none },
         { name := "C", roots := [], include_globs := [],
           exclude_globs := [], dependencies := ["B"],
           oss_git_config := none }]
        [["a"]] "C" ∨
      ForwardClosure
        [{ name := "A", roots := [],
           include_globs := [fun p => p == ["a"]], exclude_globs := [],
           dependencies := [], oss_git_config := none },
         { name := "B", roots := [], include_globs := [],
           exclude_globs := [], dependencies := ["A"],
           oss_git_config := none },
         { name := "C", roots := [], include_globs := [],
           exclude_globs := [], dependencies := ["B"],
           oss_git_config := none }]
        [] "C" := by
  refine (select_closure
      [{ name := "A", roots := [],
         include_globs := [fun p => p == ["a"]], exclude_globs := [],
         dependencies := [], oss_git_config := none },
       { name := "B", roots := [], include_globs := [],
         exclude_globs := [], dependencies := ["A"],
         oss_git_config := none },
       { name := "C", roots := [], include_globs := [],
         exclude_globs := [], dependencies := ["B"],
         oss_git_config := none }]
      [["a"]] [] ["A", "B", "C"] (by decide) ?_ (by simp) rfl "C").mp
    (by decide)
  intro c hc dep hdep
  rcases List.mem_cons.mp hc with hc | hc
  · subst hc; simp at hdep
  rcases List.mem_cons.mp hc with hc | hc
  · subst hc
    simp only [List.mem_singleton] at hdep
    subst hdep
    simp
  rcases List.mem_cons.mp hc with hc | hc
  · subst hc
    simp only [List.mem_singleton] at hdep
    subst hdep
    simp
  · simp at hc

end Autocargo
